import Mathlib

/-!
# Verification of the exam-simulator extraction layer and session model

This file gives a shallow embedding, in Lean 4, of the JavaScript sources of
the `exam-simulator-js` repository:

* `VCEParser` (src/js/vce-parser.js): the JSON document-format adapter
  (`parseFromJSON`, `findQuestionsInObject`, `looksLikeQuestion`) and the
  text cascade (`parseFromText`);
* the enhanced `PDFParser` (src/unnamed/part_001): `parse` (text pipeline,
  strategy orchestration and placeholder substitution),
  `extractQuestionsFromText` (pattern 1 and pattern 2) and
  `extractQuestionsLenient`;
* `ExamSimulator` (src/unnamed/part_002): `loadExam`, `startExam`,
  `answerQuestion`, `nextQuestion`, `previousQuestion`, `jumpToQuestion`,
  `endExam`.

Strings are modelled as `List Char`.  JavaScript regular expressions are
hand-compiled into explicit backtracking matchers: a lazy quantifier
enumerates split points in increasing order, a greedy quantifier in
decreasing order, and alternation and optional parts follow the source
order; `List.findSome?` over the candidate list realises the backtracking.
All functions are fuel-free structural recursions or `List.findSome?`
searches so that concrete runs reduce by `rfl`/`decide`.
JavaScript numbers appearing in the relevant code paths are integers and
are modelled as `Int`/`Nat`; the score percentage (`Math.round`) is
modelled over `ℚ` with half-up rounding.
-/

/-- Strings from the JavaScript sources, modelled as lists of characters. -/
abbrev Str := List Char

/-! ## Character classes and basic string helpers -/

/-- JavaScript `\s` (whitespace class), restricted to the ASCII range that
occurs in the sources' inputs. -/
def isWsJS (c : Char) : Bool :=
  c = ' ' || c = '\t' || c = '\n' || c = '\r' || c = '\x0b' || c = '\x0c'

/-- JavaScript `\d`. -/
def isDigitJS (c : Char) : Bool :=
  '0' ≤ c && c ≤ '9'

/-- Case-insensitive character comparison (the `i` regex flag). -/
def ciEq (a b : Char) : Bool :=
  a.toLower = b.toLower

/-- Case-insensitive literal prefix test (`kw` is the literal). -/
def hasPrefCi : Str → Str → Bool
  | [], _ => true
  | _ :: _, [] => false
  | k :: ks, c :: cs => ciEq c k && hasPrefCi ks cs

/-- Case-insensitive strip of a literal prefix; `none` when it is absent. -/
def stripPrefCi : Str → Str → Option Str
  | [], s => some s
  | _ :: _, [] => none
  | k :: ks, c :: cs => if ciEq c k then stripPrefCi ks cs else none

/-- Case-sensitive literal prefix test. -/
def hasPrefCs : Str → Str → Bool
  | [], _ => true
  | _ :: _, [] => false
  | k :: ks, c :: cs => (c = k) && hasPrefCs ks cs

/-- Does the literal `kw` occur (case-insensitively) anywhere in `s`? -/
def occursCi (kw s : Str) : Bool :=
  (List.range (s.length + 1)).any fun i => hasPrefCi kw (s.drop i)

/-- `String.prototype.trim`: drop JavaScript whitespace at both ends. -/
def jsTrim (s : Str) : Str :=
  ((s.dropWhile isWsJS).reverse.dropWhile isWsJS).reverse

/-- Length of the maximal prefix of `s` whose characters satisfy `p`. -/
def runLen (p : Char → Bool) : Str → Nat
  | [] => 0
  | c :: cs => if p c then runLen p cs + 1 else 0

/-- First index at which the literal `pat` occurs case-sensitively
(`String.prototype.indexOf`); `none` when it does not occur. -/
def indexOfStr (pat s : Str) : Option Nat :=
  (List.range (s.length + 1)).findSome? fun i =>
    if hasPrefCs pat (s.drop i) then some i else none

/-! ## The JSON value model

`vce-parser.js` manipulates parsed JSON data with JavaScript runtime
idioms (truthiness, `in`, `typeof x === 'object'`).  `Json` is the value
domain; an absent object property is an `Option.none` lookup (JavaScript
`undefined`). -/

inductive Json where
  | null
  | bool (b : Bool)
  | num (n : Int)
  | str (s : Str)
  | arr (items : List Json)
  | obj (fields : List (Str × Json))
  deriving Repr

/-- JavaScript truthiness of a `Json` value.  (`undefined` is handled at
lookup sites via `Option`.) -/
def truthy : Json → Bool
  | .null => false
  | .bool b => b
  | .num n => n ≠ 0
  | .str s => s ≠ []
  | .arr _ => true
  | .obj _ => true

/-- `typeof v === 'object' && v !== null`: arrays and plain objects. -/
def isObjLike : Json → Bool
  | .arr _ => true
  | .obj _ => true
  | _ => false

/-- Property lookup `o[key]`; `none` is JavaScript `undefined`.  Only plain
objects carry named properties in the source's data. -/
def getField (j : Json) (key : Str) : Option Json :=
  match j with
  | .obj fields => fields.lookup key
  | _ => none

/-- `key in o`: property presence regardless of the value's truthiness. -/
def hasKey (j : Json) (key : Str) : Bool :=
  (getField j key).isSome

/-- `o[k]` as a truthy value: the value when present and truthy. -/
def truthyField (j : Json) (key : Str) : Option Json :=
  match getField j key with
  | some v => if truthy v then some v else none
  | none => none

/-- JavaScript `o[k] || dflt`. -/
def jsOr1 (j : Json) (k : Str) (dflt : Json) : Json :=
  match truthyField j k with
  | some v => v
  | none => dflt

/-- JavaScript `o[k1] || o[k2] || dflt`. -/
def jsOr2 (j : Json) (k1 k2 : Str) (dflt : Json) : Json :=
  match truthyField j k1 with
  | some v => v
  | none => match truthyField j k2 with
    | some v => v
    | none => dflt

/-- JavaScript `o[k1] || o[k2] || o[k3] || dflt`. -/
def jsOr3 (j : Json) (k1 k2 k3 : Str) (dflt : Json) : Json :=
  match truthyField j k1 with
  | some v => v
  | none => jsOr2 j k2 k3 dflt

/-! ## The question record

The canonical record constructed by every parser
(`{text, options, correctAnswer, explanation, userAnswer}`).  The JSON
adapter copies arbitrary JSON values into the first four fields, so they
are `Json`-typed; the text parsers always store strings/arrays/numbers.
`userAnswer` is `null` at construction and is set to the chosen option
index by the session model. -/
structure Question where
  text : Json
  options : Json
  correctAnswer : Json
  explanation : Json
  userAnswer : Option Int
  deriving Repr

namespace VCEParser

/-! ## VCEParser.looksLikeQuestion (src/js/vce-parser.js lines 216-223) -/

/-- `looksLikeQuestion`: a truthy value under one of `text`/`question`/
`stem`, a truthy value under one of `options`/`answers`/`choices`, and the
presence (`in`) of one of `correctAnswer`/`correct`/`answer`. -/
def looksLikeQuestion (j : Json) : Bool :=
  ((truthyField j "text".toList).isSome || (truthyField j "question".toList).isSome
    || (truthyField j "stem".toList).isSome)
  && ((truthyField j "options".toList).isSome || (truthyField j "answers".toList).isSome
    || (truthyField j "choices".toList).isSome)
  && (hasKey j "correctAnswer".toList || hasKey j "correct".toList
    || hasKey j "answer".toList)

/-- The normalized record built at a matching node
(src/js/vce-parser.js lines 185-191). -/
def normalizeQuestion (j : Json) : Question :=
  { text := jsOr3 j "text".toList "question".toList "stem".toList (.str [])
    options := jsOr3 j "options".toList "answers".toList "choices".toList (.arr [])
    correctAnswer := jsOr3 j "correctAnswer".toList "correct".toList "answer".toList (.num 0)
    explanation := jsOr2 j "explanation".toList "rationale".toList (.str [])
    userAnswer := none }

/-! ## VCEParser.findQuestionsInObject (src/js/vce-parser.js lines 176-209)

For an array the code tests each object-like element with
`looksLikeQuestion` and either emits a normalized record or recurses; for
a plain object it recurses into every object-like property value without
testing the value itself. -/

mutual

def findQuestionsInObject : Json → List Question
  | .arr items => findInArray items
  | .obj fields => findInFields fields
  | _ => []

def findInArray : List Json → List Question
  | [] => []
  | item :: rest =>
    (if isObjLike item then
      if looksLikeQuestion item then [normalizeQuestion item]
      else findQuestionsInObject item
    else []) ++ findInArray rest

def findInFields : List (Str × Json) → List Question
  | [] => []
  | (_, v) :: rest =>
    (if isObjLike v then findQuestionsInObject v else []) ++ findInFields rest

end

/-! ## VCEParser.parseFromJSON (src/js/vce-parser.js lines 138-169) -/

/-- Direct mapping of one element of a `questions` array
(lines 144-150 / 153-159). -/
def mapDirectQuestion (q : Json) : Question :=
  { text := jsOr2 q "text".toList "question".toList (.str [])
    options := jsOr2 q "options".toList "answers".toList (.arr [])
    correctAnswer := jsOr2 q "correctAnswer".toList "correct".toList (.num 0)
    explanation := jsOr1 q "explanation".toList (.str [])
    userAnswer := none }

/-- Elements of a truthy `questions` value are iterated with `.map`; a
non-array truthy value has no elements to map (the JavaScript call would
throw, a path outside every claim).  -/
def jsonItems : Json → List Json
  | .arr items => items
  | _ => []

/-- `parseFromJSON`: a truthy root `questions` field is mapped directly;
else a truthy `exam.questions` one level deeper; else the recursive
search, whose empty result is the one propagated
`'Could not identify questions in JSON structure'` failure. -/
def parseFromJSON (jsonData : Json) : Except Str (List Question) :=
  match truthyField jsonData "questions".toList with
  | some qs => .ok ((jsonItems qs).map mapDirectQuestion)
  | none =>
    match truthyField jsonData "exam".toList with
    | some exam =>
      match truthyField exam "questions".toList with
      | some qs => .ok ((jsonItems qs).map mapDirectQuestion)
      | none => fallbackSearch jsonData
    | none => fallbackSearch jsonData
where
  fallbackSearch (jsonData : Json) : Except Str (List Question) :=
    let possible := findQuestionsInObject jsonData
    if possible.length > 0 then .ok possible
    else .error "Could not identify questions in JSON structure".toList

end VCEParser

/-! ## Specification-side traversal for the recursive search

`subNodes` lists every node of a JSON tree (the node itself first);
`matchNodes` are the nodes satisfying `looksLikeQuestion`; `arrQNodes`
are the satisfying nodes that occur as an element of some array.  These
describe the spec's phrase "exactly one descendant node satisfies the
predicate" and are compared against `findQuestionsInObject`. -/

mutual

def subNodes : Json → List Json
  | .arr items => .arr items :: subNodesList items
  | .obj fields => .obj fields :: subNodesFields fields
  | j => [j]

def subNodesList : List Json → List Json
  | [] => []
  | j :: rest => subNodes j ++ subNodesList rest

def subNodesFields : List (Str × Json) → List Json
  | [] => []
  | (_, v) :: rest => subNodes v ++ subNodesFields rest

end

/-- All descendant-or-self nodes satisfying `looksLikeQuestion`. -/
def matchNodes (j : Json) : List Json :=
  (subNodes j).filter VCEParser.looksLikeQuestion

def matchNodesList (its : List Json) : List Json :=
  (subNodesList its).filter VCEParser.looksLikeQuestion

def matchNodesFields (fs : List (Str × Json)) : List Json :=
  (subNodesFields fs).filter VCEParser.looksLikeQuestion

mutual

def arrQNodes : Json → List Json
  | .arr items => arrQNodesList items
  | .obj fields => arrQNodesFields fields
  | _ => []

def arrQNodesList : List Json → List Json
  | [] => []
  | it :: rest =>
    (if VCEParser.looksLikeQuestion it then [it] else []) ++ arrQNodes it ++ arrQNodesList rest

def arrQNodesFields : List (Str × Json) → List Json
  | [] => []
  | (_, v) :: rest => arrQNodes v ++ arrQNodesFields rest

end

/-! ## Lemmas about the recursive search -/

open VCEParser in
theorem looksLike_obj {j : Json} (h : looksLikeQuestion j = true) :
    ∃ fs, j = .obj fs := by
  cases j
  case obj fs => exact ⟨fs, rfl⟩
  all_goals simp [looksLikeQuestion, truthyField, getField, hasKey] at h

open VCEParser in
theorem looksLike_isObj {j : Json} (h : looksLikeQuestion j = true) :
    isObjLike j = true := by
  obtain ⟨fs, rfl⟩ := looksLike_obj h
  rfl

theorem mem_subNodes_self (j : Json) : j ∈ subNodes j := by
  cases j <;> simp [subNodes]

open VCEParser in
theorem looksLike_mem_matchNodes {j : Json} (h : looksLikeQuestion j = true) :
    j ∈ matchNodes j :=
  List.mem_filter.mpr ⟨mem_subNodes_self j, h⟩

theorem matchNodesList_nil : matchNodesList [] = [] := rfl

theorem matchNodesFields_nil : matchNodesFields [] = [] := rfl

theorem matchNodesList_cons (it : Json) (rest : List Json) :
    matchNodesList (it :: rest) = matchNodes it ++ matchNodesList rest := by
  simp [matchNodesList, subNodesList, List.filter_append, matchNodes]

theorem matchNodesFields_cons (k : Str) (v : Json) (rest : List (Str × Json)) :
    matchNodesFields ((k, v) :: rest) = matchNodes v ++ matchNodesFields rest := by
  simp [matchNodesFields, subNodesFields, List.filter_append, matchNodes]

open VCEParser in
theorem matchNodes_arr (items : List Json) :
    matchNodes (.arr items) = matchNodesList items := by
  have h : looksLikeQuestion (.arr items) = false := by
    simp [looksLikeQuestion, truthyField, getField]
  simp [matchNodes, matchNodesList, subNodes, List.filter_cons, h]

open VCEParser in
theorem matchNodes_obj (fs : List (Str × Json)) :
    matchNodes (.obj fs) =
      (if looksLikeQuestion (.obj fs) then [.obj fs] else []) ++ matchNodesFields fs := by
  by_cases h : looksLikeQuestion (.obj fs) <;>
    simp [matchNodes, matchNodesFields, subNodes, List.filter_cons, h]

theorem append_eq_singleton_iff {α} {xs ys : List α} {a : α} :
    xs ++ ys = [a] ↔ (xs = [] ∧ ys = [a]) ∨ (xs = [a] ∧ ys = []) := by
  cases xs with
  | nil => simp
  | cons x xs' => cases xs' <;> simp [List.append_eq_nil]

theorem json_sizeOf_pos (j : Json) : 0 < sizeOf j := by
  cases j <;> simp

theorem sizeOf_lt_of_mem_arr {it : Json} {its : List Json} (h : it ∈ its) :
    sizeOf it < sizeOf (Json.arr its) := by
  have := List.sizeOf_lt_of_mem h
  simp
  omega

theorem sizeOf_lt_of_mem_fields {k : Str} {v : Json} {fs : List (Str × Json)}
    (h : (k, v) ∈ fs) : sizeOf v < sizeOf (Json.obj fs) := by
  have := List.sizeOf_lt_of_mem h
  simp at this ⊢
  omega

open VCEParser in
theorem mem_arrQList_sub (its : List Json)
    (IH : ∀ it ∈ its, ∀ m, m ∈ arrQNodes it →
      m ∈ subNodes it ∧ looksLikeQuestion m = true) :
    ∀ m, m ∈ arrQNodesList its →
      m ∈ subNodesList its ∧ looksLikeQuestion m = true := by
  induction its with
  | nil => intro m hm; simp [arrQNodesList] at hm
  | cons it rest ih =>
    intro m hm
    have hsl : subNodesList (it :: rest) = subNodes it ++ subNodesList rest := rfl
    rw [arrQNodesList] at hm
    simp only [List.mem_append] at hm
    rcases hm with (hm | hm) | hm
    · by_cases hl : looksLikeQuestion it
      · simp [hl] at hm
        subst hm
        exact ⟨by rw [hsl]; exact List.mem_append_left _ (mem_subNodes_self m), hl⟩
      · simp [hl] at hm
    · have := IH it (List.mem_cons_self it rest) m hm
      exact ⟨by rw [hsl]; exact List.mem_append_left _ this.1, this.2⟩
    · have := ih (fun x hx => IH x (List.mem_cons_of_mem _ hx)) m hm
      exact ⟨by rw [hsl]; exact List.mem_append_right _ this.1, this.2⟩

open VCEParser in
theorem mem_arrQFields_sub (fs : List (Str × Json))
    (IH : ∀ p ∈ fs, ∀ m, m ∈ arrQNodes p.2 →
      m ∈ subNodes p.2 ∧ looksLikeQuestion m = true) :
    ∀ m, m ∈ arrQNodesFields fs →
      m ∈ subNodesFields fs ∧ looksLikeQuestion m = true := by
  induction fs with
  | nil => intro m hm; simp [arrQNodesFields] at hm
  | cons p rest ih =>
    obtain ⟨k, v⟩ := p
    intro m hm
    have hsl : subNodesFields ((k, v) :: rest) = subNodes v ++ subNodesFields rest := rfl
    rw [arrQNodesFields] at hm
    simp only [List.mem_append] at hm
    rcases hm with hm | hm
    · have := IH (k, v) (List.mem_cons_self _ rest) m hm
      exact ⟨by rw [hsl]; exact List.mem_append_left _ this.1, this.2⟩
    · have := ih (fun x hx => IH x (List.mem_cons_of_mem _ hx)) m hm
      exact ⟨by rw [hsl]; exact List.mem_append_right _ this.1, this.2⟩

open VCEParser in
theorem mem_arrQ_strong :
    ∀ n, ∀ j : Json, sizeOf j ≤ n → ∀ m, m ∈ arrQNodes j →
      m ∈ subNodes j ∧ looksLikeQuestion m = true := by
  intro n
  induction n with
  | zero =>
    intro j hsz
    exact absurd hsz (by have := json_sizeOf_pos j; omega)
  | succ n IHn =>
    intro j hsz m hm
    cases j with
    | arr items =>
      have IH : ∀ it ∈ items, ∀ m, m ∈ arrQNodes it →
          m ∈ subNodes it ∧ looksLikeQuestion m = true := by
        intro it hit
        exact IHn it (by have := sizeOf_lt_of_mem_arr hit; omega)
      have h := mem_arrQList_sub items IH m (by rwa [arrQNodes] at hm)
      exact ⟨by rw [subNodes]; exact List.mem_cons_of_mem _ h.1, h.2⟩
    | obj fields =>
      have IH : ∀ p ∈ fields, ∀ m, m ∈ arrQNodes p.2 →
          m ∈ subNodes p.2 ∧ looksLikeQuestion m = true := by
        intro p hp
        obtain ⟨k, v⟩ := p
        exact IHn v (by have := sizeOf_lt_of_mem_fields hp; omega)
      have h := mem_arrQFields_sub fields IH m (by rwa [arrQNodes] at hm)
      exact ⟨by rw [subNodes]; exact List.mem_cons_of_mem _ h.1, h.2⟩
    | null => simp [arrQNodes] at hm
    | bool b => simp [arrQNodes] at hm
    | num k => simp [arrQNodes] at hm
    | str s => simp [arrQNodes] at hm

open VCEParser in
theorem mem_arrQNodes_sub {j m : Json} (h : m ∈ arrQNodes j) :
    m ∈ subNodes j ∧ looksLikeQuestion m = true :=
  mem_arrQ_strong (sizeOf j) j le_rfl m h

open VCEParser in
theorem mem_arrQNodes_mem_matchNodes {j m : Json} (h : m ∈ arrQNodes j) :
    m ∈ matchNodes j :=
  List.mem_filter.mpr (mem_arrQNodes_sub h)

open VCEParser in
theorem isObjLike_of_mem_arrQNodes {j m : Json} (h : m ∈ arrQNodes j) :
    isObjLike j = true := by
  cases j <;> first
    | rfl
    | simp [arrQNodes] at h

open VCEParser in
theorem mem_arrQNodesList_sub {its : List Json} {m : Json} (h : m ∈ arrQNodesList its) :
    m ∈ subNodesList its ∧ looksLikeQuestion m = true :=
  mem_arrQList_sub its (fun _ _ _ hm => mem_arrQNodes_sub hm) m h

open VCEParser in
theorem mem_arrQNodesFields_sub {fs : List (Str × Json)} {m : Json}
    (h : m ∈ arrQNodesFields fs) :
    m ∈ subNodesFields fs ∧ looksLikeQuestion m = true :=
  mem_arrQFields_sub fs (fun _ _ _ hm => mem_arrQNodes_sub hm) m h

open VCEParser in
theorem looksLike_false_of_matchNodes_nil {j : Json} (h : matchNodes j = []) :
    looksLikeQuestion j = false := by
  cases hlx : looksLikeQuestion j
  · rfl
  · have := looksLike_mem_matchNodes hlx
    rw [h] at this
    simp at this

open VCEParser in
theorem findInArray_nil_of (its : List Json)
    (IH : ∀ it ∈ its, matchNodes it = [] → findQuestionsInObject it = [])
    (h : matchNodesList its = []) : findInArray its = [] := by
  induction its with
  | nil => rfl
  | cons it rest ih =>
    rw [matchNodesList_cons, List.append_eq_nil] at h
    have hll := looksLike_false_of_matchNodes_nil h.1
    simp only [findInArray]
    rw [ih (fun x hx => IH x (List.mem_cons_of_mem _ hx)) h.2]
    cases hobj : isObjLike it <;>
      simp [hobj, hll, IH it (List.mem_cons_self it rest) h.1]

open VCEParser in
theorem findInFields_nil_of (fs : List (Str × Json))
    (IH : ∀ p ∈ fs, matchNodes p.2 = [] → findQuestionsInObject p.2 = [])
    (h : matchNodesFields fs = []) : findInFields fs = [] := by
  induction fs with
  | nil => rfl
  | cons p rest ih =>
    obtain ⟨k, v⟩ := p
    rw [matchNodesFields_cons, List.append_eq_nil] at h
    simp only [findInFields]
    rw [ih (fun x hx => IH x (List.mem_cons_of_mem _ hx)) h.2]
    cases hobj : isObjLike v <;>
      simp [hobj, IH (k, v) (List.mem_cons_self _ rest) h.1]

open VCEParser in
theorem findInArray_unique_of (its : List Json) (m : Json)
    (IHe : ∀ it ∈ its, matchNodes it = [] → findQuestionsInObject it = [])
    (IHu : ∀ it ∈ its, matchNodes it = [m] → m ∈ arrQNodes it →
      findQuestionsInObject it = [normalizeQuestion m])
    (h : matchNodesList its = [m]) (hm : m ∈ arrQNodesList its) :
    findInArray its = [normalizeQuestion m] := by
  induction its with
  | nil => exact absurd h (by simp [matchNodesList_nil])
  | cons it rest ih =>
    have IHe' := fun x hx => IHe x (List.mem_cons_of_mem it hx)
    have IHu' := fun x hx => IHu x (List.mem_cons_of_mem it hx)
    rw [matchNodesList_cons, append_eq_singleton_iff] at h
    rw [arrQNodesList] at hm
    simp only [List.mem_append] at hm
    rcases h with ⟨h1, h2⟩ | ⟨h1, h2⟩
    · -- no match at the head element: the unique match is in the tail
      have hll := looksLike_false_of_matchNodes_nil h1
      have hmr : m ∈ arrQNodesList rest := by
        rcases hm with (hm | hm) | hm
        · rw [hll] at hm
          simp at hm
        · have := mem_arrQNodes_mem_matchNodes hm
          rw [h1] at this
          simp at this
        · exact hm
      simp only [findInArray]
      rw [ih IHe' IHu' h2 hmr]
      cases hobj : isObjLike it <;>
        simp [hobj, hll, IHe it (List.mem_cons_self it rest) h1]
    · -- the unique match comes from the head element
      have hrest : findInArray rest = [] := findInArray_nil_of rest IHe' h2
      rcases hm with (hm | hm) | hm
      · by_cases hll : looksLikeQuestion it
        · rw [if_pos hll] at hm
          simp at hm
          subst hm
          simp only [findInArray]
          rw [hrest, looksLike_isObj hll]
          simp [hll]
        · rw [if_neg hll] at hm
          simp at hm
      · have hobj : isObjLike it = true := isObjLike_of_mem_arrQNodes hm
        have hll : looksLikeQuestion it = false := by
          cases hlx : looksLikeQuestion it
          · rfl
          · exfalso
            have hit : it ∈ matchNodes it := looksLike_mem_matchNodes hlx
            rw [h1] at hit
            simp at hit
            subst hit
            obtain ⟨fs, rfl⟩ := looksLike_obj hlx
            rw [matchNodes_obj, hlx, if_pos rfl] at h1
            simp at h1
            rw [arrQNodes] at hm
            have := (mem_arrQNodesFields_sub hm).1
            have hmem : Json.obj fs ∈ matchNodesFields fs :=
              List.mem_filter.mpr ⟨this, hlx⟩
            rw [h1] at hmem
            simp at hmem
        simp only [findInArray]
        rw [hrest, hobj]
        simp [hll, IHu it (List.mem_cons_self it rest) h1 hm]
      · have := (mem_arrQNodesList_sub hm).1
        have hmem : m ∈ matchNodesList rest :=
          List.mem_filter.mpr ⟨this, (mem_arrQNodesList_sub hm).2⟩
        rw [h2] at hmem
        simp at hmem

open VCEParser in
theorem findInFields_unique_of (fs : List (Str × Json)) (m : Json)
    (IHe : ∀ p ∈ fs, matchNodes p.2 = [] → findQuestionsInObject p.2 = [])
    (IHu : ∀ p ∈ fs, matchNodes p.2 = [m] → m ∈ arrQNodes p.2 →
      findQuestionsInObject p.2 = [normalizeQuestion m])
    (h : matchNodesFields fs = [m]) (hm : m ∈ arrQNodesFields fs) :
    findInFields fs = [normalizeQuestion m] := by
  induction fs with
  | nil => exact absurd h (by simp [matchNodesFields_nil])
  | cons p rest ih =>
    obtain ⟨k, v⟩ := p
    have IHe' := fun x hx => IHe x (List.mem_cons_of_mem (k, v) hx)
    have IHu' := fun x hx => IHu x (List.mem_cons_of_mem (k, v) hx)
    rw [matchNodesFields_cons, append_eq_singleton_iff] at h
    rw [arrQNodesFields] at hm
    simp only [List.mem_append] at hm
    rcases h with ⟨h1, h2⟩ | ⟨h1, h2⟩
    · have hmr : m ∈ arrQNodesFields rest := by
        rcases hm with hm | hm
        · have := mem_arrQNodes_mem_matchNodes hm
          rw [h1] at this
          simp at this
        · exact hm
      simp only [findInFields]
      rw [ih IHe' IHu' h2 hmr]
      cases hobj : isObjLike v <;>
        simp [hobj, IHe (k, v) (List.mem_cons_self _ rest) h1]
    · have hrest : findInFields rest = [] := findInFields_nil_of rest IHe' h2
      rcases hm with hm | hm
      · have hobj : isObjLike v = true := isObjLike_of_mem_arrQNodes hm
        simp only [findInFields]
        rw [hrest, hobj]
        simp [IHu (k, v) (List.mem_cons_self _ rest) h1 hm]
      · have hmem : m ∈ matchNodesFields rest :=
          List.mem_filter.mpr (mem_arrQNodesFields_sub hm)
        rw [h2] at hmem
        simp at hmem

open VCEParser in
theorem findQ_strong :
    ∀ n, ∀ j : Json, sizeOf j ≤ n →
      (matchNodes j = [] → findQuestionsInObject j = []) ∧
      (∀ m, matchNodes j = [m] → m ∈ arrQNodes j →
        findQuestionsInObject j = [normalizeQuestion m]) := by
  intro n
  induction n with
  | zero =>
    intro j hsz
    exact absurd hsz (by have := json_sizeOf_pos j; omega)
  | succ n IHn =>
    intro j hsz
    cases j with
    | arr items =>
      have IHe : ∀ it ∈ items, matchNodes it = [] → findQuestionsInObject it = [] := by
        intro it hit
        exact (IHn it (by have := sizeOf_lt_of_mem_arr hit; omega)).1
      have IHu : ∀ it ∈ items, ∀ m, matchNodes it = [m] → m ∈ arrQNodes it →
          findQuestionsInObject it = [normalizeQuestion m] := by
        intro it hit
        exact (IHn it (by have := sizeOf_lt_of_mem_arr hit; omega)).2
      constructor
      · intro h
        rw [matchNodes_arr] at h
        exact findInArray_nil_of items IHe h
      · intro m h hm
        rw [matchNodes_arr] at h
        rw [arrQNodes] at hm
        exact findInArray_unique_of items m IHe (fun it hit => IHu it hit m) h hm
    | obj fields =>
      have IHe : ∀ p ∈ fields, matchNodes p.2 = [] → findQuestionsInObject p.2 = [] := by
        intro p hp
        obtain ⟨k, v⟩ := p
        exact (IHn v (by have := sizeOf_lt_of_mem_fields hp; omega)).1
      have IHu : ∀ p ∈ fields, ∀ m, matchNodes p.2 = [m] → m ∈ arrQNodes p.2 →
          findQuestionsInObject p.2 = [normalizeQuestion m] := by
        intro p hp
        obtain ⟨k, v⟩ := p
        exact (IHn v (by have := sizeOf_lt_of_mem_fields hp; omega)).2
      constructor
      · intro h
        rw [matchNodes_obj] at h
        rw [List.append_eq_nil] at h
        exact findInFields_nil_of fields IHe h.2
      · intro m h hm
        rw [arrQNodes] at hm
        rw [matchNodes_obj] at h
        by_cases hll : looksLikeQuestion (.obj fields)
        · rw [if_pos hll] at h
          rw [append_eq_singleton_iff] at h
          rcases h with ⟨h1, _⟩ | ⟨h1, h2⟩
          · simp at h1
          · exfalso
            simp at h1
            have hmem : m ∈ matchNodesFields fields :=
              List.mem_filter.mpr (mem_arrQNodesFields_sub hm)
            rw [h2] at hmem
            simp at hmem
        · rw [if_neg hll] at h
          rw [List.nil_append] at h
          exact findInFields_unique_of fields m IHe (fun p hp => IHu p hp m) h hm
    | null =>
      refine ⟨fun _ => rfl, fun m h _ => ?_⟩
      have hn : matchNodes Json.null = [] := rfl
      rw [hn] at h
      exact absurd h (by simp)
    | bool b =>
      refine ⟨fun _ => rfl, fun m h _ => ?_⟩
      have hn : matchNodes (Json.bool b) = [] := rfl
      rw [hn] at h
      exact absurd h (by simp)
    | num k =>
      refine ⟨fun _ => rfl, fun m h _ => ?_⟩
      have hn : matchNodes (Json.num k) = [] := rfl
      rw [hn] at h
      exact absurd h (by simp)
    | str s =>
      refine ⟨fun _ => rfl, fun m h _ => ?_⟩
      have hn : matchNodes (Json.str s) = [] := rfl
      rw [hn] at h
      exact absurd h (by simp)

open VCEParser in
theorem findQuestionsInObject_unique_arr {j m : Json}
    (h : matchNodes j = [m]) (hm : m ∈ arrQNodes j) :
    findQuestionsInObject j = [normalizeQuestion m] :=
  (findQ_strong (sizeOf j) j le_rfl).2 m h hm

/-! ## Claim C2: the recursive search on a structure with a unique match -/

/-- **C2** (amended).  For a JSON root without a (truthy) top-level
`questions` or `exam.questions` field, in which exactly one descendant node
satisfies the "looks like a question" predicate and that node occurs as an
array element, `parseFromJSON` returns exactly one normalized record, with
`text` resolved through the aliases `text`/`question`/`stem`, `options`
through `options`/`answers`/`choices`, and `correctAnswer` through
`correctAnswer`/`correct`/`answer`.  (The restriction to array elements is
forced: `findQuestionsInObject` applies the predicate only to array
elements, never to object-valued properties.) -/
theorem claim_C2_unique_recursive_search (root m : Json)
    (hq : truthyField root "questions".toList = none)
    (he : ∀ exam, truthyField root "exam".toList = some exam →
      truthyField exam "questions".toList = none)
    (h1 : matchNodes root = [m]) (h2 : m ∈ arrQNodes root) :
    VCEParser.parseFromJSON root =
      .ok [{ text := jsOr3 m "text".toList "question".toList "stem".toList (.str [])
             options := jsOr3 m "options".toList "answers".toList "choices".toList (.arr [])
             correctAnswer :=
               jsOr3 m "correctAnswer".toList "correct".toList "answer".toList (.num 0)
             explanation := jsOr2 m "explanation".toList "rationale".toList (.str [])
             userAnswer := none }] := by
  have hfind := findQuestionsInObject_unique_arr h1 h2
  unfold VCEParser.parseFromJSON
  rw [hq]
  cases hex : truthyField root "exam".toList with
  | none =>
    simp [VCEParser.parseFromJSON.fallbackSearch, hfind, VCEParser.normalizeQuestion]
  | some exam =>
    dsimp only
    rw [he exam hex]
    simp [VCEParser.parseFromJSON.fallbackSearch, hfind, VCEParser.normalizeQuestion]

/-- A concrete nested structure whose unique question-shaped node sits inside
an array under a wrapper object. -/
def c2witnessMatch : Json :=
  .obj [("stem".toList, .str "why".toList),
        ("choices".toList, .arr [.str "a".toList, .str "b".toList]),
        ("answer".toList, .num 1)]

def c2witnessRoot : Json :=
  .obj [("data".toList, .arr [.num 3, c2witnessMatch])]

theorem claim_C2_unique_recursive_search_witness :
    VCEParser.parseFromJSON c2witnessRoot =
      .ok [{ text := .str "why".toList
             options := .arr [.str "a".toList, .str "b".toList]
             correctAnswer := .num 1
             explanation := .str []
             userAnswer := none }] :=
  claim_C2_unique_recursive_search c2witnessRoot c2witnessMatch rfl
    (fun _ h => nomatch h) rfl
    (by show c2witnessMatch ∈ [c2witnessMatch]; exact List.mem_singleton.mpr rfl)

/-- A concrete nested structure whose unique question-shaped node is an
object-valued property (not an array element): the recursive search never
tests it, returns zero records, and `parseFromJSON` fails — refuting the
claim that the match is found "regardless of whether the matching node is
an array element or an object-valued property". -/
def c2cexMatch : Json :=
  .obj [("stem".toList, .str "why".toList),
        ("choices".toList, .arr [.str "a".toList, .str "b".toList]),
        ("answer".toList, .num 0)]

def c2cexRoot : Json :=
  .obj [("a".toList, c2cexMatch)]

theorem claim_C2_counterexample :
    matchNodes c2cexRoot = [c2cexMatch] ∧
    truthyField c2cexRoot "questions".toList = none ∧
    truthyField c2cexRoot "exam".toList = none ∧
    VCEParser.looksLikeQuestion c2cexMatch = true ∧
    VCEParser.findQuestionsInObject c2cexRoot = [] ∧
    VCEParser.parseFromJSON c2cexRoot =
      .error "Could not identify questions in JSON structure".toList :=
  ⟨rfl, rfl, rfl, rfl, rfl, rfl⟩

/-! ## Claim C6: the direct `questions` array path is a field round-trip -/

/-- The common question shape `{text, options, correctAnswer}`. -/
def plainQuestionShape (t : Str) (o : List Json) (c : Int) : Json :=
  .obj [("text".toList, .str t),
        ("options".toList, .arr o),
        ("correctAnswer".toList, .num c)]

theorem mapDirect_plainShape (t : Str) (o : List Json) (c : Int) :
    VCEParser.mapDirectQuestion (plainQuestionShape t o c) =
      { text := .str t, options := .arr o, correctAnswer := .num c,
        explanation := .str [], userAnswer := none } := by
  by_cases ht : t = [] <;> by_cases hc : c = 0 <;>
    simp [plainQuestionShape, VCEParser.mapDirectQuestion, jsOr2, jsOr1,
      truthyField, getField, truthy, ht, hc, List.lookup]

/-- **C6**.  For an input of the shape
`{questions: [{text, options, correctAnswer}, ...]}` the adapter returns a
list of the same length whose `text`, `options` and `correctAnswer` values
pass through unchanged, with `explanation` defaulting to the empty string
and `userAnswer` to null. -/
theorem claim_C6_questions_roundtrip (items : List (Str × List Json × Int)) :
    VCEParser.parseFromJSON
      (.obj [("questions".toList,
        .arr (items.map fun p => plainQuestionShape p.1 p.2.1 p.2.2))]) =
      .ok (items.map fun p =>
        { text := .str p.1, options := .arr p.2.1, correctAnswer := .num p.2.2,
          explanation := .str [], userAnswer := none }) := by
  unfold VCEParser.parseFromJSON
  have hq : truthyField
      (.obj [("questions".toList,
        .arr (items.map fun p => plainQuestionShape p.1 p.2.1 p.2.2))])
      "questions".toList =
      some (.arr (items.map fun p => plainQuestionShape p.1 p.2.1 p.2.2)) := rfl
  rw [hq]
  simp only [VCEParser.jsonItems, List.map_map]
  congr 1
  apply List.map_congr_left
  intro p _
  exact mapDirect_plainShape p.1 p.2.1 p.2.2

/-! ## The session model: ExamSimulator (src/unnamed/part_002)

The timer (`setInterval`) is a UI-side resource; its callback only
decrements `timeRemaining` and eventually calls `endExam`, and no claim
quantifies over timer ticks, so the embedding keeps `timeRemaining` as
plain state and omits the interval handle. -/

namespace ExamSimulator

inductive Mode where
  | study
  | exam
  deriving Repr, DecidableEq

/-- The mutable fields of the `ExamSimulator` class (constructor,
lines 5-15). -/
structure SimState where
  questions : List Question
  currentQuestionIndex : Nat
  timeRemaining : Int
  mode : Mode
  score : Nat
  examDuration : Int
  examInProgress : Bool
  examCompleted : Bool
  deriving Repr

/-- JavaScript strict equality `a === v` between the stored numeric
`userAnswer` and the record's `correctAnswer` value. -/
def strictEqNum (a : Int) : Json → Bool
  | .num m => a = m
  | _ => false

/-- One record counts toward the score iff `userAnswer !== null/undefined`
and `userAnswer === correctAnswer` (endExam, lines 200-207). -/
def isAnsweredCorrect (q : Question) : Bool :=
  match q.userAnswer with
  | some a => strictEqNum a q.correctAnswer
  | none => false

/-- `Math.round` on the exact rational value (half-up, as in JavaScript
for the non-negative values that arise here). -/
def jsRound (q : ℚ) : Int :=
  Int.floor (q + 1 / 2)

/-- The object returned by `getCurrentQuestion` (lines 112-119). -/
structure CurrentQuestion where
  questionIndex : Nat
  totalQuestions : Nat
  question : Question
  userAnswer : Option Int
  deriving Repr

/-- `getCurrentQuestion`; `none` models the TypeError raised when
`questions[currentQuestionIndex]` is `undefined`. -/
def getCurrentQuestion (st : SimState) : Option CurrentQuestion :=
  match st.questions[st.currentQuestionIndex]? with
  | some q => some ⟨st.currentQuestionIndex, st.questions.length, q, q.userAnswer⟩
  | none => none

/-- `loadExam` after the chosen parser has resolved with `parsed`
(lines 34-45): an empty record list is rejected with
`'No questions found in the file.'`; otherwise the exam state is reset and
the question count reported. -/
def loadExam (parsed : List Question) (st : SimState) : Except Str (Nat × SimState) :=
  if parsed.length = 0 then
    .error "No questions found in the file.".toList
  else
    .ok (parsed.length,
      { st with questions := parsed, currentQuestionIndex := 0, score := 0,
                examCompleted := false })

/-- `startExam` (lines 57-77): resets index/score/answers, arms the
countdown in exam mode, and returns the current question. -/
def startExam (mode : Mode) (duration : Int) (st : SimState) :
    Option CurrentQuestion × SimState :=
  let st1 : SimState :=
    { st with mode := mode, examDuration := duration, currentQuestionIndex := 0,
              score := 0, examInProgress := true, examCompleted := false,
              questions := st.questions.map fun q => { q with userAnswer := none } }
  let st2 := if mode = .exam then { st1 with timeRemaining := duration * 60 } else st1
  (getCurrentQuestion st2, st2)

/-- Result of `answerQuestion`: study mode returns feedback
(lines 133-139), exam mode only an acknowledgement (line 142). -/
inductive AnswerResult where
  | feedback (isCorrect : Bool) (correctAnswer : Json) (explanation : Json)
  | recorded
  deriving Repr

/-- `question.explanation || 'No explanation available.'`. -/
def explanationOr (e : Json) : Json :=
  if truthy e then e else .str "No explanation available.".toList

/-- `answerQuestion` (lines 126-143): stores `userAnswer` on the current
question unconditionally; `none` models the TypeError on an empty list. -/
def answerQuestion (answerIndex : Int) (st : SimState) :
    Option (AnswerResult × SimState) :=
  match st.questions[st.currentQuestionIndex]? with
  | none => none
  | some q =>
    let st' : SimState :=
      { st with questions :=
          st.questions.set st.currentQuestionIndex { q with userAnswer := some answerIndex } }
    if st.mode = .study then
      some (.feedback (strictEqNum answerIndex q.correctAnswer) q.correctAnswer
        (explanationOr q.explanation), st')
    else
      some (.recorded, st')

/-- `nextQuestion` (lines 149-155): advance unless at the last index;
`none` is the "no movement" result. -/
def nextQuestion (st : SimState) : Option CurrentQuestion × SimState :=
  if (st.currentQuestionIndex : Int) < (st.questions.length : Int) - 1 then
    let st' := { st with currentQuestionIndex := st.currentQuestionIndex + 1 }
    (getCurrentQuestion st', st')
  else
    (none, st)

/-- `previousQuestion` (lines 161-167). -/
def previousQuestion (st : SimState) : Option CurrentQuestion × SimState :=
  if 0 < st.currentQuestionIndex then
    let st' := { st with currentQuestionIndex := st.currentQuestionIndex - 1 }
    (getCurrentQuestion st', st')
  else
    (none, st)

/-- `jumpToQuestion` (lines 174-180): out-of-range indices throw
`'Invalid question index'` and leave the state untouched. -/
def jumpToQuestion (index : Int) (st : SimState) :
    Except Str (Option CurrentQuestion) × SimState :=
  if 0 ≤ index ∧ index < (st.questions.length : Int) then
    let st' := { st with currentQuestionIndex := index.toNat }
    (.ok (getCurrentQuestion st'), st')
  else
    (.error "Invalid question index".toList, st)

/-- The results object of `endExam` (lines 209-214).  With zero questions
the JavaScript percentage is `NaN`; claim C10 shows `loadExam` keeps that
state unreachable, so the rational model only serves nonzero counts. -/
structure ExamResults where
  score : Nat
  totalQuestions : Nat
  answeredQuestions : Nat
  percentage : Int
  deriving Repr

/-- `endExam` (lines 186-215): stops the countdown, recomputes the score
as the number of records whose stored answer strictly equals
`correctAnswer`, and rounds the percentage. -/
def endExam (st : SimState) : ExamResults × SimState :=
  let score := st.questions.countP isAnsweredCorrect
  let answered := st.questions.countP fun q => q.userAnswer.isSome
  let st' := { st with examInProgress := false, examCompleted := true, score := score }
  (⟨score, st.questions.length, answered,
    jsRound ((score : ℚ) / (st.questions.length : ℚ) * 100)⟩, st')

end ExamSimulator

/-! ## Claims about the session model -/

open ExamSimulator in
theorem answerQuestion_singleton (st : ExamSimulator.SimState) (q : Question) (i : Int)
    (hq : st.questions = [q]) (hidx : st.currentQuestionIndex = 0) :
    ∃ res, ExamSimulator.answerQuestion i st =
      some (res, { st with questions := [{ q with userAnswer := some i }] }) := by
  unfold ExamSimulator.answerQuestion
  rw [hq, hidx]
  simp only [List.getElem?_cons_zero]
  by_cases hm : st.mode = Mode.study
  · rw [if_pos hm]
    exact ⟨_, rfl⟩
  · rw [if_neg hm]
    exact ⟨_, rfl⟩

open ExamSimulator in
/-- **C3**.  `endExam` computes the score as the number of records whose
stored `userAnswer` strictly equals `correctAnswer` and the percentage as
`round(score/total*100)`; and for a one-question session the sequence
`startExam; answerQuestion i; endExam` scores 1 and 100% when `i` equals
the correct index and 0 otherwise. -/
theorem claim_C3_start_answer_end_scoring (st : ExamSimulator.SimState) (q : Question)
    (c i : Int) (mode : ExamSimulator.Mode) (dur : Int)
    (hq : st.questions = [q]) (hc : q.correctAnswer = .num c) :
    (∀ s : ExamSimulator.SimState,
      (endExam s).1.score = s.questions.countP isAnsweredCorrect ∧
      (endExam s).1.percentage =
        jsRound ((s.questions.countP isAnsweredCorrect : ℚ) / (s.questions.length : ℚ) * 100)) ∧
    ∃ res st2, answerQuestion i (startExam mode dur st).2 = some (res, st2) ∧
      (endExam st2).1.score = (if i = c then 1 else 0) ∧
      (endExam st2).1.percentage = (if i = c then 100 else 0) := by
  refine ⟨fun s => ⟨rfl, rfl⟩, ?_⟩
  have hq1 : (startExam mode dur st).2.questions = [{ q with userAnswer := none }] := by
    cases mode <;> simp [startExam, hq]
  have hidx : (startExam mode dur st).2.currentQuestionIndex = 0 := by
    cases mode <;> simp [startExam]
  obtain ⟨res, hres⟩ := answerQuestion_singleton _ { q with userAnswer := none } i hq1 hidx
  refine ⟨res, _, hres, ?_, ?_⟩
  · simp [endExam, hq1, List.countP_cons, isAnsweredCorrect, strictEqNum, hc]
  · simp [endExam, hq1, List.countP_cons, isAnsweredCorrect, strictEqNum, hc]
    by_cases hi : i = c <;> simp [hi, jsRound] <;> norm_num

def c3q : Question :=
  { text := .str "t".toList, options := .arr [.str "a".toList, .str "b".toList],
    correctAnswer := .num 0, explanation := .str [], userAnswer := none }

def c3state : ExamSimulator.SimState :=
  { questions := [c3q], currentQuestionIndex := 0, timeRemaining := 0,
    mode := .study, score := 0, examDuration := 60,
    examInProgress := false, examCompleted := false }

theorem claim_C3_start_answer_end_scoring_witness :
    c3state.questions = [c3q] ∧ c3q.correctAnswer = Json.num 0 ∧
    ∃ res st2,
      ExamSimulator.answerQuestion 0 (ExamSimulator.startExam .study 60 c3state).2 =
        some (res, st2) ∧
      (ExamSimulator.endExam st2).1.score = 1 ∧
      (ExamSimulator.endExam st2).1.percentage = 100 :=
  ⟨rfl, rfl, by
    have h := (claim_C3_start_answer_end_scoring c3state c3q 0 0 .study 60 rfl rfl).2
    simpa using h⟩

open ExamSimulator in
/-- **C5**.  `jumpToQuestion (-1)` and `jumpToQuestion N` fail with the
out-of-range error and leave the state unchanged, while `previousQuestion`
at index 0 and `nextQuestion` at index `N-1` return the "no movement"
result `null` without failing and leave the state unchanged. -/
theorem claim_C5_navigation_boundaries (st : ExamSimulator.SimState) :
    jumpToQuestion (-1) st = (.error "Invalid question index".toList, st) ∧
    jumpToQuestion (st.questions.length : Int) st =
      (.error "Invalid question index".toList, st) ∧
    (st.currentQuestionIndex = 0 → previousQuestion st = (none, st)) ∧
    ((st.currentQuestionIndex : Int) = (st.questions.length : Int) - 1 →
      nextQuestion st = (none, st)) := by
  refine ⟨?_, ?_, ?_, ?_⟩
  · norm_num [jumpToQuestion]
  · simp [jumpToQuestion]
  · intro h
    simp [previousQuestion, h]
  · intro h
    simp [nextQuestion, h]

def c5state : ExamSimulator.SimState :=
  { questions := [c3q], currentQuestionIndex := 0, timeRemaining := 0,
    mode := .study, score := 0, examDuration := 60,
    examInProgress := false, examCompleted := false }

theorem claim_C5_navigation_boundaries_witness :
    ExamSimulator.jumpToQuestion (-1) c5state =
      (.error "Invalid question index".toList, c5state) ∧
    ExamSimulator.jumpToQuestion 1 c5state =
      (.error "Invalid question index".toList, c5state) ∧
    ExamSimulator.previousQuestion c5state = (none, c5state) ∧
    ExamSimulator.nextQuestion c5state = (none, c5state) := by
  have h := claim_C5_navigation_boundaries c5state
  exact ⟨h.1, h.2.1, h.2.2.1 rfl, h.2.2.2 rfl⟩

open ExamSimulator in
/-- **C8** (amended).  After `startExam` every record's `userAnswer` is
null, and a successful `answerQuestion i` stores `some i` on the current
record unconditionally — overwriting any previously recorded answer rather
than enforcing set-at-most-once. -/
theorem claim_C8_userAnswer_null_then_overwritten :
    (∀ (st : ExamSimulator.SimState) (mode : Mode) (dur : Int),
      ∀ p ∈ (startExam mode dur st).2.questions, p.userAnswer = none) ∧
    (∀ (st : ExamSimulator.SimState) (i : Int) (res : AnswerResult)
        (st2 : ExamSimulator.SimState),
      answerQuestion i st = some (res, st2) →
      (st2.questions[st.currentQuestionIndex]?).map Question.userAnswer =
        some (some i)) := by
  constructor
  · intro st mode dur p hp
    have hq : (startExam mode dur st).2.questions =
        st.questions.map fun q => { q with userAnswer := none } := by
      cases mode <;> rfl
    rw [hq] at hp
    obtain ⟨q, -, rfl⟩ := List.mem_map.mp hp
    rfl
  · intro st i res st2 h
    unfold answerQuestion at h
    cases hg : st.questions[st.currentQuestionIndex]? with
    | none => rw [hg] at h; cases h
    | some q =>
      rw [hg] at h
      dsimp only at h
      have hlt : st.currentQuestionIndex < st.questions.length :=
        (List.getElem?_eq_some.mp hg).1
      have hset : (st.questions.set st.currentQuestionIndex
          { q with userAnswer := some i })[st.currentQuestionIndex]? =
          some { q with userAnswer := some i } :=
        List.getElem?_set_eq_of_lt _ hlt
      by_cases hm : st.mode = Mode.study
      · rw [if_pos hm] at h
        injection h with h'
        injection h' with _ h2
        rw [← h2]
        simp [hset]
      · rw [if_neg hm] at h
        injection h with h'
        injection h' with _ h2
        rw [← h2]
        simp [hset]

def c8state : ExamSimulator.SimState := c5state

/-- Counterexample to C8 as stated: in a running one-question session the
userAnswer is first recorded as 0 and a later record-answer operation in
the same active session changes it to 1. -/
theorem claim_C8_counterexample :
    (do
      let r1 ← ExamSimulator.answerQuestion 0 (ExamSimulator.startExam .study 60 c8state).2
      let r2 ← ExamSimulator.answerQuestion 1 r1.2
      pure (r1.2.questions.map Question.userAnswer,
            r2.2.questions.map Question.userAnswer) : Option _) =
      some ([some 0], [some 1]) := rfl

open ExamSimulator in
/-- **C10**.  A parser result with zero records makes `loadExam` reject
with `'No questions found in the file.'`; a successful load yields a state
whose question count is positive, so the `endExam` percentage denominator
is never zero. -/
theorem claim_C10_loadExam_rejects_empty (st : ExamSimulator.SimState)
    (parsed : List Question) :
    loadExam [] st = .error "No questions found in the file.".toList ∧
    (∀ n st', loadExam parsed st = .ok (n, st') →
      st'.questions.length = n ∧ 0 < n ∧
      (endExam st').1.totalQuestions = n ∧ ((st'.questions.length : ℚ) ≠ 0)) := by
  constructor
  · rfl
  · intro n st' h
    unfold loadExam at h
    by_cases hp : parsed.length = 0
    · rw [if_pos hp] at h
      cases h
    · rw [if_neg hp] at h
      injection h with h'
      injection h' with h1 h2
      subst h1
      subst h2
      refine ⟨rfl, by omega, rfl, by push_cast; exact_mod_cast hp⟩

theorem claim_C10_loadExam_rejects_empty_witness :
    ExamSimulator.loadExam [] c5state =
      .error "No questions found in the file.".toList ∧
    ∃ st', ExamSimulator.loadExam [c3q] c5state = .ok (1, st') ∧
      st'.questions.length = 1 ∧ 0 < 1 ∧
      (ExamSimulator.endExam st').1.totalQuestions = 1 := by
  have h := claim_C10_loadExam_rejects_empty c5state [c3q]
  refine ⟨h.1, ?_⟩
  obtain ⟨h1, h2, h3, -⟩ := h.2 1 _ rfl
  exact ⟨_, rfl, h1, h2, h3⟩

/-! ## Backtracking combinators for the hand-compiled regular expressions

A regex with quantifiers is compiled to a chain of continuations.  Each
quantifier enumerates its candidate splits in the engine's preference
order (lazy: shortest first; greedy: longest first) and `List.findSome?`
tries the continuation on each, which is exactly the backtracking order of
the JavaScript engine.  A lookahead is a Boolean test on the remaining
suffix that consumes nothing. -/

/-- Lazy quantifier `([\s\S]+?)` bounded by a lookahead: try capture
lengths `1, 2, ...`; at each split where the lookahead holds, run the
continuation on (capture, rest). -/
def lazyCapture {α} (look : Str → Bool) (s : Str) (k : Str → Str → Option α) :
    Option α :=
  (List.range' 1 s.length).findSome? fun i =>
    if look (s.drop i) then k (s.take i) (s.drop i) else none

/-- Greedy `+` over a character class: candidate run lengths from the
maximal run down to 1. -/
def greedyPlus {α} (p : Char → Bool) (s : Str) (k : Str → Str → Option α) :
    Option α :=
  ((List.range' 1 (runLen p s)).reverse).findSome? fun i =>
    k (s.take i) (s.drop i)

/-- Greedy `*` over a character class: run lengths from maximal down to 0. -/
def greedyStar {α} (p : Char → Bool) (s : Str) (k : Str → Option α) : Option α :=
  ((List.range' 0 (runLen p s + 1)).reverse).findSome? fun i => k (s.drop i)

/-- Optional alternation prefix `(?:W1|W2)?` (case-insensitive literals,
longest alternative first, then absent). -/
def optPrefix2Ci {α} (w1 w2 : Str) (s : Str) (k : Str → Option α) : Option α :=
  (match stripPrefCi w1 s with
   | some rest => k rest
   | none => none) <|>
  (match stripPrefCi w2 s with
   | some rest => k rest
   | none => none) <|>
  k s

/-- Optional case-insensitive literal `(?:W)?` (present first). -/
def optWordCi {α} (w : Str) (s : Str) (k : Str → Option α) : Option α :=
  (match stripPrefCi w s with
   | some rest => k rest
   | none => none) <|>
  k s

/-- Optional single character from a class, `[..]?` (present first). -/
def optCharClass {α} (p : Char → Bool) (s : Str) (k : Str → Option α) : Option α :=
  (match s with
   | c :: rest => if p c then k rest else none
   | [] => none) <|>
  k s

/-- The group `(?:\s*W)?`: inside the group the whitespace run is greedy;
the whole group is optional (absent last). -/
def optGroupWsWord {α} (w : Str) (s : Str) (k : Str → Option α) : Option α :=
  (((List.range' 0 (runLen isWsJS s + 1)).reverse).findSome? fun i =>
    match stripPrefCi w (s.drop i) with
    | some rest => k rest
    | none => none) <|>
  k s

/-- `${num}?` in a template regex: only the last character of the
interpolated number receives the `?`, so the leading digits are a
mandatory literal and the final digit is optional (greedy). -/
def numAlmostLiteral {α} (num : Str) (s : Str) (k : Str → Option α) : Option α :=
  match num.dropLast, num.getLast? with
  | front, some lastc =>
    (match hasPrefCs front s, s.drop front.length with
     | true, rest =>
       (match rest with
        | c :: rest' => if c = lastc then k rest' else none
        | [] => none) <|> k rest
     | false, _ => none)
  | _, none => k s

namespace PDFParser

/-! ## PDFParser.extractQuestionsFromText, pattern 1
(src/unnamed/part_001 lines 120-164)

The regex (flags `gi`):
`(?:Question|Q)?[\s\.:]?(\d+)[\.\s:]+([\s\S]+?)(?=(?:A\.[\s]+))([\s\S]+?)`
`(?=(?:B\.[\s]+))([\s\S]+?)(?=(?:C\.[\s]+))([\s\S]+?)(?=(?:D\.[\s]+))`
`([\s\S]+?)(?=(?:(?:Question|Q)?[\s\.:]?\d+|Answer|Correct|$))` -/

/-- The character class `[\s\.:]`. -/
def sepChar (c : Char) : Bool :=
  isWsJS c || c = '.' || c = ':'

/-- Lookahead `(?=[Xx]\.\s)` for an option label (the `i` flag makes the
letter case-insensitive). -/
def lookOpt (letter : Char) (s : Str) : Bool :=
  match s with
  | a :: b :: c :: _ => ciEq a letter && b = '.' && isWsJS c
  | _ => false

def digitStart : Str → Bool
  | c :: _ => isDigitJS c
  | [] => false

/-- `[\s\.:]?\d+` as a lookahead body. -/
def optSepDigit (s : Str) : Bool :=
  digitStart s ||
  (match s with
   | c :: rest => sepChar c && digitStart rest
   | [] => false)

/-- `(?:Question|Q)?[\s\.:]?\d+` as a lookahead body. -/
def numLookahead (s : Str) : Bool :=
  (match stripPrefCi "question".toList s with
   | some rest => optSepDigit rest
   | none => false) ||
  (match stripPrefCi "q".toList s with
   | some rest => optSepDigit rest
   | none => false) ||
  optSepDigit s

/-- The terminating lookahead
`(?=(?:(?:Question|Q)?[\s\.:]?\d+|Answer|Correct|$))`. -/
def endLookahead (s : Str) : Bool :=
  numLookahead s || hasPrefCi "answer".toList s ||
    hasPrefCi "correct".toList s || s.isEmpty

/-- The six captures of pattern 1. -/
structure P1Caps where
  num : Str
  stem : Str
  optA : Str
  optB : Str
  optC : Str
  optD : Str
  deriving Repr

/-- The number-onward part of pattern 1:
`(\d+)[\.\s:]+` and the five lazy captures. -/
def matchP1Body (s2 : Str) : Option (P1Caps × Str) :=
  greedyPlus isDigitJS s2 fun num s3 =>
  greedyPlus sepChar s3 fun _ s4 =>
  lazyCapture (lookOpt 'a') s4 fun stem s5 =>
  lazyCapture (lookOpt 'b') s5 fun optA s6 =>
  lazyCapture (lookOpt 'c') s6 fun optB s7 =>
  lazyCapture (lookOpt 'd') s7 fun optC s8 =>
  lazyCapture endLookahead s8 fun optD s9 =>
  some (⟨num, stem, optA, optB, optC, optD⟩, s9)

/-- One match attempt of pattern 1 anchored at the start of `s`; returns
the captures and the suffix after the match. -/
def matchPattern1At (s : Str) : Option (P1Caps × Str) :=
  optPrefix2Ci "question".toList "q".toList s fun s1 =>
  optCharClass sepChar s1 fun s2 =>
  matchP1Body s2

/-- `exec` scanning: leftmost match at or after the current position. -/
def scanPattern1 (s : Str) : Option (P1Caps × Str) :=
  (List.range (s.length + 1)).findSome? fun o => matchPattern1At (s.drop o)

/-! ### The per-match answer / explanation window lookups
(lines 129-134): `Answer(?:\s*for)?\s*(?:question)?\s*${num}?[\.:\s]+([A-D])`
over the next 200 characters and the analogous `Explanation` pattern over
the next 500 characters, both with flag `i`. -/

/-- `[\.:\s]`. -/
def ansSepChar (c : Char) : Bool :=
  c = '.' || c = ':' || isWsJS c

/-- `[A-D]` under the `i` flag. -/
def isAnsLetter (c : Char) : Bool :=
  ('A' ≤ c && c ≤ 'D') || ('a' ≤ c && c ≤ 'd')

/-- One attempt of the answer pattern anchored at `s`. -/
def answerMatchAt (num : Str) (s : Str) : Option Char :=
  match stripPrefCi "answer".toList s with
  | none => none
  | some s1 =>
    optGroupWsWord "for".toList s1 fun s2 =>
    greedyStar isWsJS s2 fun s3 =>
    optWordCi "question".toList s3 fun s4 =>
    greedyStar isWsJS s4 fun s5 =>
    numAlmostLiteral num s5 fun s6 =>
    greedyPlus ansSepChar s6 fun _ s7 =>
    match s7 with
    | c :: _ => if isAnsLetter c then some c else none
    | [] => none

/-- `.match` of the answer pattern on the 200-character window. -/
def answerSearch (num window : Str) : Option Char :=
  (List.range (window.length + 1)).findSome? fun o => answerMatchAt num (window.drop o)

/-- One attempt of the explanation pattern anchored at `s`; the capture is
`([^\n]+)`. -/
def explMatchAt (num : Str) (s : Str) : Option Str :=
  match stripPrefCi "explanation".toList s with
  | none => none
  | some s1 =>
    optGroupWsWord "for".toList s1 fun s2 =>
    greedyStar isWsJS s2 fun s3 =>
    optWordCi "question".toList s3 fun s4 =>
    greedyStar isWsJS s4 fun s5 =>
    numAlmostLiteral num s5 fun s6 =>
    greedyPlus ansSepChar s6 fun _ s7 =>
    (let r := runLen (fun c => c ≠ '\n') s7
     if r = 0 then none else some (s7.take r))

def explSearch (num window : Str) : Option Str :=
  (List.range (window.length + 1)).findSome? fun o => explMatchAt num (window.drop o)

/-- The if-chain mapping the captured answer letter to an index
(lines 143-150), defaulting to `A`. -/
def letterIdx (c : Char) : Int :=
  let u := c.toUpper
  if u = 'A' then 0 else if u = 'B' then 1
  else if u = 'C' then 2 else if u = 'D' then 3 else 0

/-- `optionX.replace(/^X\.[\s]+/, '').trim()` (lines 137-140; the replace
is anchored and case-sensitive). -/
def cleanOpt (letter : Char) (s : Str) : Str :=
  jsTrim (match s with
    | a :: b :: rest =>
      if a = letter && b = '.' &&
          (match rest with | c :: _ => isWsJS c | [] => false) then
        rest.dropWhile isWsJS
      else s
    | other => other)

/-- Record construction for one pattern-1 match (lines 152-163).  The
windows start at the end of the whole match. -/
def mkRecordP1 (caps : P1Caps) (rest : Str) : Question :=
  let correct : Int :=
    match answerSearch caps.num (rest.take 200) with
    | some c => letterIdx c
    | none => 0
  let expl : Str :=
    match explSearch caps.num (rest.take 500) with
    | some e => jsTrim e
    | none => []
  { text := .str (jsTrim caps.stem)
    options := .arr [.str (cleanOpt 'A' caps.optA), .str (cleanOpt 'B' caps.optB),
                     .str (cleanOpt 'C' caps.optC), .str (cleanOpt 'D' caps.optD)]
    correctAnswer := .num correct
    explanation := .str expl
    userAnswer := none }

/-- The `while ((match = questionPattern1.exec(text)) !== null)` loop.
Every match consumes at least one character, so `text.length + 1` units of
fuel suffice. -/
def execP1 : Nat → Str → List Question
  | 0, _ => []
  | fuel + 1, s =>
    match scanPattern1 s with
    | none => []
    | some (caps, rest) => mkRecordP1 caps rest :: execP1 fuel rest

/-- All records found by pattern 1. -/
def extractP1 (text : Str) : List Question :=
  execP1 (text.length + 1) text

end PDFParser

/-! ## Generic split / global-match loops

`String.prototype.split(regex)` cuts at every (leftmost, non-overlapping)
match; `String.prototype.match(regex-g)` collects the matched substrings.
`matchAt` returns the length of a match anchored at the given suffix.  All
delimiters below consume at least one character, so `length + 1` fuel
suffices. -/

def splitLoop (matchAt : Str → Option Nat) : Nat → Str → Str → List Str
  | 0, acc, s => [acc.reverse ++ s]
  | fuel + 1, acc, s =>
    match s with
    | [] => [acc.reverse]
    | c :: rest =>
      match matchAt s with
      | some n => acc.reverse :: splitLoop matchAt fuel [] (s.drop n)
      | none => splitLoop matchAt fuel (c :: acc) rest

def jsSplit (matchAt : Str → Option Nat) (s : Str) : List Str :=
  splitLoop matchAt (s.length + 1) [] s

def gmLoop (matchAt : Str → Option Nat) : Nat → Str → List Str
  | 0, _ => []
  | fuel + 1, s =>
    match s with
    | [] => []
    | _ :: rest =>
      match matchAt s with
      | some n => s.take n :: gmLoop matchAt fuel (s.drop n)
      | none => gmLoop matchAt fuel rest

def jsGlobalMatch (matchAt : Str → Option Nat) (s : Str) : List Str :=
  gmLoop matchAt (s.length + 1) s

def isNlChar (c : Char) : Bool :=
  c = '\n' || c = '\r'

/-- One line-break delimiter `\n|\r\n?` (used by the line splits). -/
def lineBreakAt (s : Str) : Option Nat :=
  match s with
  | '\n' :: _ => some 1
  | '\r' :: '\n' :: _ => some 2
  | '\r' :: _ => some 1
  | _ => none

/-- `text.split(/\n|\r\n?/)`. -/
def splitLines (s : Str) : List Str :=
  jsSplit lineBreakAt s

namespace PDFParser

/-! ## PDFParser.extractQuestionsFromText, pattern 2
(src/unnamed/part_001 lines 167-222) -/

/-- The section delimiter `(?:\n|\r\n?)+(?:\d+\.|\(?[0-9]+\))` (leading
line-break run, then either `12.` or `(12)`/`12)`). -/
def sectionSepAt (s : Str) : Option Nat :=
  let r := runLen isNlChar s
  if r = 0 then none
  else
    let rest := s.drop r
    let d := runLen isDigitJS rest
    (if d > 0 && (rest.drop d).head? = some '.' then some (r + d + 1) else none) <|>
    (let (paren, rest2) : Nat × Str :=
      match rest with
      | '(' :: t => (1, t)
      | _ => (0, rest)
     let d2 := runLen isDigitJS rest2
     if d2 > 0 && (rest2.drop d2).head? = some ')' then some (r + paren + d2 + 1)
     else none)

/-- One option line `X\.\s+[^\n]+` inside the four-options test
(case-sensitive), continuation style. -/
def optLine {α} (letter : Char) (s : Str) (k : Str → Option α) : Option α :=
  match s with
  | a :: b :: rest =>
    if a = letter && b = '.' then
      greedyPlus isWsJS rest fun _ s2 =>
      greedyPlus (fun c => c ≠ '\n') s2 fun _ s3 => k s3
    else none
  | _ => none

/-- `/A\.\s+[^\n]+(?:\n|\r\n?)+B\. ... D\.\s+[^\n]+/` anchored at `s`. -/
def optBlockAt (s : Str) : Option Unit :=
  optLine 'A' s fun s1 =>
  greedyPlus isNlChar s1 fun _ s2 =>
  optLine 'B' s2 fun s3 =>
  greedyPlus isNlChar s3 fun _ s4 =>
  optLine 'C' s4 fun s5 =>
  greedyPlus isNlChar s5 fun _ s6 =>
  optLine 'D' s6 fun _ => some ()

/-- `section.match(/A\.\s+ ... D\.\s+[^\n]+/g)` tested for at least one
match. -/
def hasOptBlock (s : Str) : Bool :=
  ((List.range (s.length + 1)).findSome? fun o => optBlockAt (s.drop o)).isSome

/-- First-occurrence capture of `/X\.\s+([^\n]+)/` (case-sensitive). -/
def optLineCapture (letter : Char) (s : Str) : Option Str :=
  (List.range (s.length + 1)).findSome? fun o =>
    match s.drop o with
    | a :: b :: rest =>
      if a = letter && b = '.' then
        greedyPlus isWsJS rest fun _ s2 =>
        (let r := runLen (fun c => c ≠ '\n') s2
         if r = 0 then none else some (s2.take r))
      else none
    | _ => none

/-- `[^A-D]` under flag `i`. -/
def notAnsLetter (c : Char) : Bool :=
  !isAnsLetter c

/-- `/(?:answer|correct)[^A-D]*(A|B|C|D)/i` anchored at `s`. -/
def looseAnswerMatchAt (s : Str) : Option Char :=
  let cont := fun rest =>
    greedyStar notAnsLetter rest fun s2 =>
    match s2 with
    | c :: _ => if isAnsLetter c then some c else none
    | [] => none
  match stripPrefCi "answer".toList s with
  | some rest => cont rest
  | none =>
    match stripPrefCi "correct".toList s with
    | some rest => cont rest
    | none => none

def looseAnswerSearch (s : Str) : Option Char :=
  (List.range (s.length + 1)).findSome? fun o => looseAnswerMatchAt (s.drop o)

/-- `'ABCD'.indexOf(c.toUpperCase())`. -/
def abcdIndexOf (c : Char) : Int :=
  let u := c.toUpper
  if u = 'A' then 0 else if u = 'B' then 1
  else if u = 'C' then 2 else if u = 'D' then 3 else -1

/-- Pattern-2 processing of one section (lines 171-221). -/
def extractP2Section (sectionRaw : Str) : List Question :=
  let sect := jsTrim sectionRaw
  if sect.length < 20 then []
  else if hasOptBlock sect then
    match indexOfStr ['A', '.'] sect with
    | none => []
    | some idx =>
      if idx = 0 then []
      else
        let questionText := jsTrim (sect.take idx)
        if questionText.length > 10 then
          match optLineCapture 'A' sect, optLineCapture 'B' sect,
              optLineCapture 'C' sect, optLineCapture 'D' sect with
          | some a, some b, some c, some d =>
            let correct : Int :=
              match looseAnswerSearch sect with
              | some ch => abcdIndexOf ch
              | none => 0
            [{ text := .str questionText
               options := .arr [.str (jsTrim a), .str (jsTrim b),
                                .str (jsTrim c), .str (jsTrim d)]
               correctAnswer := .num correct
               explanation := .str []
               userAnswer := none }]
          | _, _, _, _ => []
        else []
  else []

/-- Pattern 2 over the whole text: split into numbered sections, drop the
falsy pieces, process each. -/
def extractP2 (text : Str) : List Question :=
  ((jsSplit sectionSepAt text).filter (· ≠ [])).flatMap extractP2Section

/-- `extractQuestionsFromText` (lines 117-224): pattern 1, with pattern 2
as the zero-result fallback. -/
def extractQuestionsFromText (text : Str) : List Question :=
  let q1 := extractP1 text
  if q1.isEmpty then extractP2 text else q1

end PDFParser

namespace PDFParser

/-! ## PDFParser.extractQuestionsLenient (src/unnamed/part_001
lines 232-347) -/

/-- The lenient block delimiter
`(?:\n|\r\n?)+(?:\d+\.|\(?[0-9]+\)|Question\s+\d+:)` (flag `i`). -/
def lenientSepAt (s : Str) : Option Nat :=
  let r := runLen isNlChar s
  if r = 0 then none
  else
    let rest := s.drop r
    let d := runLen isDigitJS rest
    (if d > 0 && (rest.drop d).head? = some '.' then some (r + d + 1) else none) <|>
    (let (paren, rest2) : Nat × Str :=
      match rest with
      | '(' :: t => (1, t)
      | _ => (0, rest)
     let d2 := runLen isDigitJS rest2
     if d2 > 0 && (rest2.drop d2).head? = some ')' then some (r + paren + d2 + 1)
     else none) <|>
    (match stripPrefCi "question".toList rest with
     | none => none
     | some rest3 =>
       let w := runLen isWsJS rest3
       if w = 0 then none
       else
         let d3 := runLen isDigitJS (rest3.drop w)
         if d3 > 0 && ((rest3.drop w).drop d3).head? = some ':' then
           some (r + 8 + w + d3 + 1)
         else none)

/-- `block.split(/\n|\r\n?/).filter(line => line.trim().length > 0)`
(lines 268). -/
def nonBlankLines (s : Str) : List Str :=
  (splitLines s).filter fun ln => (jsTrim ln).length > 0

/-- `/(?:explanation|reason)[\s:]*([^\n]+)/i` anchored at `s`
(lines 295-298). -/
def explReasonMatchAt (s : Str) : Option Str :=
  let cont := fun rest =>
    greedyStar (fun c => isWsJS c || c = ':') rest fun s2 =>
    (let r := runLen (fun c => c ≠ '\n') s2
     if r = 0 then none else some (s2.take r))
  match stripPrefCi "explanation".toList s with
  | some rest => cont rest
  | none =>
    match stripPrefCi "reason".toList s with
    | some rest => cont rest
    | none => none

def explReasonSearch (s : Str) : Option Str :=
  (List.range (s.length + 1)).findSome? fun o => explReasonMatchAt (s.drop o)

/-- One lenient block (lines 239-308). -/
def lenientBlock (block : Str) : List Question :=
  if block.length < 50 then []
  else
    match optLineCapture 'A' block, optLineCapture 'B' block,
        optLineCapture 'C' block, optLineCapture 'D' block with
    | some a, some b, some c, some d =>
      let idcs := ([indexOfStr ['A', '.'] block, indexOfStr ['B', '.'] block,
                    indexOfStr ['C', '.'] block,
                    indexOfStr ['D', '.'] block].filterMap id)
      let questionText0 : Str :=
        match idcs.min? with
        | some m => if m > 0 then jsTrim (block.take m) else []
        | none => jsTrim block
      let questionText : Str :=
        if questionText0.length < 10 then
          match nonBlankLines block with
          | l0 :: _ => jsTrim l0
          | [] => questionText0
        else questionText0
      if 10 ≤ questionText.length then
        let correct : Int :=
          match looseAnswerSearch block with
          | some ch => abcdIndexOf ch
          | none => 0
        let expl : Str :=
          match explReasonSearch block with
          | some e => jsTrim e
          | none => []
        [{ text := .str questionText
           options := .arr [.str (jsTrim a), .str (jsTrim b),
                            .str (jsTrim c), .str (jsTrim d)]
           correctAnswer := .num correct
           explanation := .str expl
           userAnswer := none }]
      else []
    | _, _, _, _ => []

/-- `/[^\.\?!]+\?/` anchored at `s`: a run of non-terminator characters
followed by a question mark (lines 314). -/
def qSentenceAt (s : Str) : Option Nat :=
  let r := runLen (fun c => c ≠ '.' && c ≠ '?' && c ≠ '!') s
  if r = 0 then none
  else if (s.drop r).head? = some '?' then some (r + 1) else none

/-- The aggressive last-resort scan (lines 312-345): for each sentence
ending in `?`, look for the four option lines in the 500 characters after
its first occurrence in the text. -/
def lenientAggressive (text : Str) : List Question :=
  (jsGlobalMatch qSentenceAt text).flatMap fun qt =>
    match indexOfStr qt text with
    | none => []
    | some qi =>
      let after := (text.drop (qi + qt.length)).take 500
      match optLineCapture 'A' after, optLineCapture 'B' after,
          optLineCapture 'C' after, optLineCapture 'D' after with
      | some a, some b, some c, some d =>
        [{ text := .str (jsTrim qt)
           options := .arr [.str (jsTrim a), .str (jsTrim b),
                            .str (jsTrim c), .str (jsTrim d)]
           correctAnswer := .num 0
           explanation := .str []
           userAnswer := none }]
      | _, _, _, _ => []

/-- `extractQuestionsLenient` (lines 232-347). -/
def extractQuestionsLenient (text : Str) : List Question :=
  let qs := ((jsSplit lenientSepAt text).filter (· ≠ [])).flatMap lenientBlock
  if qs.isEmpty then lenientAggressive text else qs

/-! ## PDFParser.parse, text pipeline (src/unnamed/part_001 lines 23-105)

The asynchronous plumbing (file reading, pdf.js text extraction) is
upstream I/O; the pipeline below starts from the per-page text strings the
loop at lines 28-47 produces: `fullText` is the concatenation of the page
texts each followed by a blank line. -/

def placeholderQuestion : Question :=
  { text := .str "Could not parse questions from this PDF. Please check the format.".toList
    options := .arr
      [.str "The PDF might have a non-standard format".toList,
       .str "Text extraction might be incomplete".toList,
       .str "Try a different PDF or format".toList,
       .str "Contact support for assistance".toList]
    correctAnswer := .num 0
    explanation := .str "PDF parsing failed. Please check the console for more details.".toList
    userAnswer := none }

def fullTextOfPages (pages : List Str) : Str :=
  (pages.map (· ++ ('\n' :: '\n' :: []))).flatten

/-- The strategy orchestration of `parse` (lines 52-84), before the
placeholder substitution. -/
def pdfCascade (pages : List Str) : List Question :=
  let fullText := fullTextOfPages pages
  let q1 := extractQuestionsFromText fullText
  let q2 :=
    if q1.length ≤ 1 then
      let pageQuestions := (pages.map extractQuestionsFromText).flatten
      if pageQuestions.length > q1.length then pageQuestions else q1
    else q1
  if q2.length ≤ 1 then
    let lenientQuestions := extractQuestionsLenient fullText
    if lenientQuestions.length > q2.length then lenientQuestions else q2
  else q2

/-- `parse` (lines 52-105): the cascade result, or the diagnostic
placeholder when every strategy found nothing. -/
def parse (pages : List Str) : List Question :=
  let questions := pdfCascade pages
  if questions.length = 0 then [placeholderQuestion] else questions

end PDFParser

namespace VCEParser

/-! ## VCEParser.parseFromText (src/js/vce-parser.js lines 230-374) -/

/-- The block delimiter `/QUESTION\s+\d+/i` (line 235). -/
def vceQSepAt (s : Str) : Option Nat :=
  match stripPrefCi "question".toList s with
  | none => none
  | some rest =>
    let w := runLen isWsJS rest
    if w = 0 then none
    else
      let d := runLen isDigitJS (rest.drop w)
      if d = 0 then none else some (8 + w + d)

/-- `/[A-D]\.\s+/` anchored (case-sensitive; line 240). -/
def adMarkerAt (s : Str) : Bool :=
  match s with
  | a :: b :: c :: _ => ('A' ≤ a && a ≤ 'D') && b = '.' && isWsJS c
  | _ => false

/-- First index of `/[A-D]\.\s+/` (the `optionStartMatch`). -/
def adMarkerIdx (s : Str) : Option Nat :=
  (List.range (s.length + 1)).findSome? fun o =>
    if adMarkerAt (s.drop o) then some o else none

/-- `/[A-D]\.\s+([^\n]+)/` anchored, returning the full match length
(for the global collection at line 246). -/
def adOptionAt (s : Str) : Option Nat :=
  match s with
  | a :: b :: rest =>
    if ('A' ≤ a && a ≤ 'D') && b = '.' then
      greedyPlus isWsJS rest fun ws s2 =>
      (let r := runLen (fun c => c ≠ '\n') s2
       if r = 0 then none else some (2 + ws.length + r))
    else none
  | _ => none

/-- `opt.replace(/^[A-D]\.\s+/, '')` (line 250). -/
def stripAdPrefix (s : Str) : Str :=
  match s with
  | a :: b :: rest =>
    if ('A' ≤ a && a ≤ 'D') && b = '.' &&
        (match rest with | c :: _ => isWsJS c | [] => false) then
      rest.dropWhile isWsJS
    else s
  | other => other

/-- `/(?:Explanation|Correct Answer)[^:]*:([^$]+)/i` anchored
(line 263; `[^$]` is the literal class "any character except a dollar
sign"). -/
def vceExplMatchAt (s : Str) : Option Str :=
  let cont := fun rest =>
    greedyStar (fun c => c ≠ ':') rest fun s2 =>
    match s2 with
    | ':' :: s3 =>
      let r := runLen (fun c => c ≠ '$') s3
      if r = 0 then none else some (s3.take r)
    | _ => none
  match stripPrefCi "explanation".toList s with
  | some rest => cont rest
  | none =>
    match stripPrefCi "correct answer".toList s with
    | some rest => cont rest
    | none => none

def vceExplSearch (s : Str) : Option Str :=
  (List.range (s.length + 1)).findSome? fun o => vceExplMatchAt (s.drop o)

/-- Phase 1, one block (lines 237-276). -/
def vceBlock1 (block : Str) : List Question :=
  match adMarkerIdx block with
  | none => []
  | some idx =>
    let questionText := jsTrim (block.take idx)
    let optionMatches := jsGlobalMatch adOptionAt block
    if optionMatches.length < 2 then []
    else
      let options := optionMatches.map fun opt => jsTrim (stripAdPrefix opt)
      let correct : Int :=
        match PDFParser.looseAnswerSearch block with
        | some ch => PDFParser.abcdIndexOf ch
        | none => 0
      let expl : Str :=
        match vceExplSearch block with
        | some e => jsTrim e
        | none => []
      [{ text := .str questionText
         options := .arr (options.map .str)
         correctAnswer := .num correct
         explanation := .str expl
         userAnswer := none }]

def parseFromTextPhase1 (text : Str) : List Question :=
  ((jsSplit vceQSepAt text).filter (· ≠ [])).flatMap vceBlock1

/-! ### Phase 2 (lines 279-326): the global pattern
`/\d+\.\s+([^\n]+)(?:\n|\r\n?)+(?:[A-D]\.[\s\S]*?){2,}/g`.

Each repetition of the final group is an option label `[A-D]\.` followed
by a lazy filler, so the whole group extends marker by marker as long as a
further label can be reached, and the match ends directly after the last
label. -/

/-- `[A-D]\.` anchored. -/
def adDotAt (s : Str) : Bool :=
  match s with
  | a :: b :: _ => ('A' ≤ a && a ≤ 'D') && b = '.'
  | _ => false

/-- Count the further `[A-D]\.` labels reachable through lazy fillers,
accumulating (count, consumed length). -/
def phase2Iter : Nat → Str → Nat × Nat → Nat × Nat
  | 0, _, acc => acc
  | fuel + 1, s, (cnt, con) =>
    match (List.range (s.length + 1)).findSome? fun o =>
        if adDotAt (s.drop o) then some o else none with
    | some o => phase2Iter fuel (s.drop (o + 2)) (cnt + 1, con + o + 2)
    | none => (cnt, con)

def phase2MatchAt (s : Str) : Option Nat :=
  let d := runLen isDigitJS s
  if d = 0 then none
  else
    match s.drop d with
    | '.' :: s1 =>
      greedyPlus isWsJS s1 fun ws s2 =>
      (let r := runLen (fun c => c ≠ '\n') s2
       if r = 0 then none
       else
         let s3 := s2.drop r
         greedyPlus isNlChar s3 fun nls s4 =>
         if adDotAt s4 then
           let (cnt, con) := phase2Iter (s4.length + 1) (s4.drop 2) (1, 2)
           if 2 ≤ cnt then some (d + 1 + ws.length + r + nls.length + con)
           else none
         else none)
    | _ => none

/-- `lines[i].match(/^([A-D])\.\s+(.+)$/)` (line 294). -/
def lineOptionCapture (line : Str) : Option (Char × Str) :=
  match line with
  | a :: b :: rest =>
    if ('A' ≤ a && a ≤ 'D') && b = '.' then
      greedyPlus isWsJS rest fun _ s2 =>
      if s2 = [] then none else some (a, s2)
    else none
  | _ => none

/-- Sparse option-slot assignment `options[letter-65] = value`: JavaScript
arrays record the highest assigned index; a hole reads back as
`undefined`, rendered here as `Json.null`. -/
structure OptSlots where
  a : Option Str
  b : Option Str
  c : Option Str
  d : Option Str
  deriving Repr

def OptSlots.empty : OptSlots := ⟨none, none, none, none⟩

def OptSlots.set (sl : OptSlots) (letter : Char) (v : Str) : OptSlots :=
  if letter = 'A' then { sl with a := some v }
  else if letter = 'B' then { sl with b := some v }
  else if letter = 'C' then { sl with c := some v }
  else { sl with d := some v }

/-- `options.length` of the sparse array. -/
def OptSlots.len (sl : OptSlots) : Nat :=
  if sl.d.isSome then 4 else if sl.c.isSome then 3
  else if sl.b.isSome then 2 else if sl.a.isSome then 1 else 0

def slotJson : Option Str → Json
  | some v => .str v
  | none => .null

/-- The sparse array as a JSON value (holes as `Json.null`). -/
def OptSlots.toJson (sl : OptSlots) : Json :=
  .arr (([slotJson sl.a, slotJson sl.b, slotJson sl.c, slotJson sl.d]).take sl.len)

/-- `lines[0].replace(/^\d+\.\s+/, '')` (line 289). -/
def stripNumPrefix (s : Str) : Str :=
  let d := runLen isDigitJS s
  if d = 0 then s
  else
    match s.drop d with
    | '.' :: rest =>
      let w := runLen isWsJS rest
      if w = 0 then s else rest.drop w
    | _ => s

/-- Phase 2, one matched substring (lines 284-324). -/
def vcePhase2Match (m : Str) : List Question :=
  match (splitLines m).filter (· ≠ []) with
  | [] => []
  | l0 :: restLines =>
    let questionText := jsTrim (stripNumPrefix l0)
    let slots := restLines.foldl
      (fun acc ln =>
        match lineOptionCapture ln with
        | some (c, cap) => acc.set c (jsTrim cap)
        | none => acc)
      OptSlots.empty
    if 2 ≤ slots.len then
      let ansLine := (l0 :: restLines).find? fun ln =>
        occursCi "answer".toList ln || occursCi "correct".toList ln
      let correct : Int :=
        match ansLine with
        | some ln =>
          match ln.find? (fun c => 'A' ≤ c && c ≤ 'D') with
          | some c => (c.toNat : Int) - 65
          | none => 0
        | none => 0
      [{ text := .str questionText
         options := slots.toJson
         correctAnswer := .num correct
         explanation := .str []
         userAnswer := none }]
    else []

def parseFromTextPhase2 (text : Str) : List Question :=
  (jsGlobalMatch phase2MatchAt text).flatMap vcePhase2Match

/-! ### Phase 3 (lines 329-371): the generic line scan. -/

/-- `/^([A-D])[\.)\s]+(.+)$/` (line 353). -/
def p3OptionCapture (ln : Str) : Option (Char × Str) :=
  match ln with
  | c :: rest =>
    if 'A' ≤ c && c ≤ 'D' then
      greedyPlus (fun ch => ch = '.' || ch = ')' || isWsJS ch) rest fun _ s2 =>
      if s2 = [] then none else some (c, s2)
    else none
  | [] => none

/-- `/^[A-D][\.)\s]+/` test (line 362). -/
def p3OptionTest (ln : Str) : Bool :=
  match ln with
  | c :: d :: _ => ('A' ≤ c && c ≤ 'D') && (d = '.' || d = ')' || isWsJS d)
  | _ => false

structure P3Cur where
  text : Str
  slots : OptSlots

def mkP3Record (cur : P3Cur) : Question :=
  { text := .str cur.text
    options := cur.slots.toJson
    correctAnswer := .num 0
    explanation := .str []
    userAnswer := none }

/-- The accumulation loop over the trimmed non-blank lines. -/
def phase3Go : Option P3Cur → List Str → List Question
  | _, [] => []
  | none, ln :: rest =>
    if ln.getLast? = some '?' || ln.length > 50 then
      phase3Go (some ⟨ln, OptSlots.empty⟩) rest
    else
      phase3Go none rest
  | some cur, ln :: rest =>
    let cur' : P3Cur :=
      match p3OptionCapture ln with
      | some (c, cap) => { cur with slots := cur.slots.set c (jsTrim cap) }
      | none => cur
    let nextLine : Str := match rest with | nl :: _ => nl | [] => []
    let nextIsOption := p3OptionTest nextLine
    if 2 ≤ cur'.slots.len && (!nextIsOption || rest.isEmpty) then
      mkP3Record cur' :: phase3Go none rest
    else
      phase3Go (some cur') rest

def parseFromTextPhase3 (text : Str) : List Question :=
  phase3Go none (((splitLines text).filter (· ≠ [])).map jsTrim)

/-- `parseFromText` (lines 230-374): three phases, each tried only when
the previous produced no record, and no placeholder substitution — the
function can return the empty list. -/
def parseFromText (text : Str) : List Question :=
  let qs1 := parseFromTextPhase1 text
  if qs1.isEmpty then
    let qs2 := parseFromTextPhase2 text
    if qs2.isEmpty then parseFromTextPhase3 text else qs2
  else qs1

end VCEParser

/-! ## Claim C1: the placeholder guarantee -/

open PDFParser in
/-- **C1** (amended).  The PDF text pipeline always returns at least one
record: when every strategy yields zero records the diagnostic placeholder
is substituted.  (The VCE text cascade has no such substitution; see the
counterexample.) -/
theorem claim_C1_pdf_never_empty (pages : List Str) :
    1 ≤ (PDFParser.parse pages).length := by
  unfold PDFParser.parse
  by_cases h : (pdfCascade pages).length = 0
  · simp [h]
  · simp [h]
    omega

/-- Counterexample to C1 as stated: on the empty string the VCE text
cascade (`VCEParser.parseFromText`) returns the empty list — no
placeholder is substituted there. -/
theorem claim_C1_counterexample :
    VCEParser.parseFromText [] = [] := rfl

/-! ## Claim C7: the revised parser's orchestration policy -/

/-- Modelled from the spec's orchestration sentence (§4.2 / C7): strategy 1
runs on the whole document; when it yields at most one record the per-page
rerun replaces it only with strictly more records; when the best result
still has at most one record, the lenient cascade is kept only with
strictly more records than the best so far. -/
def cascadePolicySpec (pages : List Str) : List Question :=
  let whole := PDFParser.extractQuestionsFromText (PDFParser.fullTextOfPages pages)
  let perPage := (pages.map PDFParser.extractQuestionsFromText).flatten
  let best := if whole.length ≤ 1 ∧ perPage.length > whole.length then perPage else whole
  let lenient := PDFParser.extractQuestionsLenient (PDFParser.fullTextOfPages pages)
  if best.length ≤ 1 ∧ lenient.length > best.length then lenient else best

/-- **C7**.  The strategy orchestration of the revised `PDFParser.parse`
coincides with the spec's policy on every input. -/
theorem claim_C7_cascade_policy (pages : List Str) :
    PDFParser.pdfCascade pages = cascadePolicySpec pages := by
  unfold PDFParser.pdfCascade cascadePolicySpec
  dsimp only
  split_ifs <;> first | rfl | omega

/-! ## Claim C9: extraction is a pure function of its input -/

/-- **C9**.  Both text cascades are deterministic pure functions: two runs
on identical input give identical output.  (The embedding is total and
state-free because the source functions read only their argument and
locals — in particular each call creates fresh regex objects, so no
`lastIndex` state survives a call.) -/
theorem claim_C9_extraction_idempotent (t : Str) (pages : List Str) :
    VCEParser.parseFromText t = VCEParser.parseFromText t ∧
    PDFParser.extractQuestionsFromText t = PDFParser.extractQuestionsFromText t ∧
    PDFParser.extractQuestionsLenient t = PDFParser.extractQuestionsLenient t ∧
    PDFParser.parse pages = PDFParser.parse pages :=
  ⟨rfl, rfl, rfl, rfl⟩

def c8afterAnswer : ExamSimulator.SimState :=
  { questions := [{ c3q with userAnswer := some 1 }], currentQuestionIndex := 0,
    timeRemaining := 0, mode := .study, score := 0, examDuration := 60,
    examInProgress := true, examCompleted := false }

theorem claim_C8_userAnswer_null_then_overwritten_witness :
    (c8afterAnswer.questions[(0 : Nat)]?).map Question.userAnswer = some (some 1) :=
  claim_C8_userAnswer_null_then_overwritten.2
    (ExamSimulator.startExam .study 60 c8state).2 1 _ c8afterAnswer rfl

/-! ## Claim C4: generic lemmas about the backtracking combinators -/

theorem findSome?_range'_first {α} (start len i₀ : Nat) (f : Nat → Option α) (v : α)
    (hlo : start ≤ i₀) (hhi : i₀ < start + len)
    (hnone : ∀ i, start ≤ i → i < i₀ → f i = none)
    (hv : f i₀ = some v) :
    (List.range' start len).findSome? f = some v := by
  induction len generalizing start with
  | zero => omega
  | succ n ih =>
    rw [List.range'_succ, List.findSome?_cons]
    by_cases h : start = i₀
    · subst h
      rw [hv]
    · rw [hnone start le_rfl (by omega)]
      exact ih (start + 1) (by omega) (by omega) (fun i h1 h2 => hnone i (by omega) h2)

theorem findSome?_range_first {α} (len i₀ : Nat) (f : Nat → Option α) (v : α)
    (hhi : i₀ < len)
    (hnone : ∀ i, i < i₀ → f i = none)
    (hv : f i₀ = some v) :
    (List.range len).findSome? f = some v := by
  rw [List.range_eq_range' len]
  exact findSome?_range'_first 0 len i₀ f v (Nat.zero_le _) (by omega)
    (fun i _ h2 => hnone i h2) hv

theorem findSome?_range'_reverse_first {α} (len : Nat) (f : Nat → Option α) (v : α)
    (hlen : 1 ≤ len) (hv : f len = some v) :
    ((List.range' 1 len).reverse).findSome? f = some v := by
  obtain ⟨n, rfl⟩ : ∃ n, len = n + 1 := ⟨len - 1, by omega⟩
  have hc : List.range' 1 (n + 1) = List.range' 1 n ++ [1 + 1 * n] :=
    @List.range'_concat 1 1 n
  rw [hc, List.reverse_append]
  simp only [List.reverse_cons, List.reverse_nil, List.nil_append, List.cons_append,
    List.findSome?_cons]
  rw [show 1 + 1 * n = n + 1 by omega, hv]

/-- The greedy `+` takes the maximal run when the continuation succeeds
there. -/
theorem greedyPlus_run {α} {p : Char → Bool} {s : Str} {k : Str → Str → Option α} {v : α}
    (h1 : 1 ≤ runLen p s)
    (hk : k (s.take (runLen p s)) (s.drop (runLen p s)) = some v) :
    greedyPlus p s k = some v := by
  unfold greedyPlus
  exact findSome?_range'_reverse_first (runLen p s) _ v h1 hk

/-- A lazy capture stops at the first split where the lookahead fires,
when the continuation succeeds there. -/
theorem lazyCapture_boundary {α} {look : Str → Bool} {pre post : Str}
    {k : Str → Str → Option α} {v : α}
    (hlen : 1 ≤ pre.length)
    (hno : ∀ i, 1 ≤ i → i < pre.length → look (pre.drop i ++ post) = false)
    (hyes : look post = true)
    (hk : k pre post = some v) :
    lazyCapture look (pre ++ post) k = some v := by
  unfold lazyCapture
  have hdrop : ∀ i, i ≤ pre.length → (pre ++ post).drop i = pre.drop i ++ post :=
    fun i hi => List.drop_append_of_le_length hi
  have htake : (pre ++ post).take pre.length = pre := by
    rw [List.take_append_of_le_length le_rfl, List.take_length]
  apply findSome?_range'_first 1 (pre ++ post).length pre.length _ v hlen
    (by simp; omega)
  · intro i h1 h2
    rw [hdrop i (by omega), hno i h1 h2]
    simp
  · rw [hdrop pre.length le_rfl, List.drop_length, List.nil_append, hyes, htake]
    simpa using hk

/-- `runLen` over an exact run: every character of `xs` is in the class
and the first character of `ys` is not. -/
theorem runLen_append_exact {p : Char → Bool} {xs ys : Str}
    (hxs : ∀ c ∈ xs, p c = true)
    (hys : ∀ c, ys.head? = some c → p c = false) :
    runLen p (xs ++ ys) = xs.length := by
  induction xs with
  | nil =>
    cases ys with
    | nil => rfl
    | cons c t =>
      simp only [List.nil_append, runLen, hys c rfl]
      rfl
  | cons x xs ih =>
    have hx : p x = true := hxs x (List.mem_cons_self x xs)
    simp [List.cons_append, runLen, hx,
      ih (fun c hc => hxs c (List.mem_cons_of_mem x hc))]

theorem optPrefix2Ci_skip {α} {w1 w2 s : Str} {k : Str → Option α}
    (h1 : stripPrefCi w1 s = none) (h2 : stripPrefCi w2 s = none) :
    optPrefix2Ci w1 w2 s k = k s := by
  unfold optPrefix2Ci
  rw [h1, h2]
  rfl

theorem optCharClass_skip {α} {p : Char → Bool} {c : Char} {rest : Str}
    {k : Str → Option α}
    (h : p c = false) :
    optCharClass p (c :: rest) k = k (c :: rest) := by
  show ((if p c = true then k rest else none) <|> k (c :: rest)) = k (c :: rest)
  rw [h]
  simp

theorem stripPrefCi_cons_none {kc : Char} {ks : Str} {c : Char} {cs : Str}
    (h : ciEq c kc = false) :
    stripPrefCi (kc :: ks) (c :: cs) = none := by
  show (if ciEq c kc = true then stripPrefCi ks cs else none) = none
  rw [h]
  simp

/-! ## Claim C4: well-formed strict blocks

The claim quantifies over texts made of well-formed blocks
`<num>. <stem> A. opt1 B. opt2 C. opt3 D. opt4 Answer: C`.  `safeInner`
pins down the stem/option alphabet used in the formalization: characters
that can neither be mistaken for an option label, a question number, an
answer separator, nor the start of one of the keywords the trailing
lookahead and the answer/explanation lookups react to. -/

def digits10 : Str := ['0', '1', '2', '3', '4', '5', '6', '7', '8', '9']

/-- A character allowed inside a stem or option of a well-formed block. -/
def safeInner (c : Char) : Bool :=
  !isDigitJS c && !(c = '.') && !(c = ':') && !isNlChar c &&
  !ciEq c 'a' && !ciEq c 'c' && !ciEq c 'q'

/-- A stem/option string: non-empty, safe characters, and a head that is
none of the separator characters the number prefix could swallow. -/
def safeStr (s : Str) : Bool :=
  (match s with
   | c :: _ => !isWsJS c && safeInner c
   | [] => false) &&
  s.all safeInner

/-- One block of the claim's shape. -/
structure C4Block where
  num : Str
  stem : Str
  o1 : Str
  o2 : Str
  o3 : Str
  o4 : Str
  deriving Repr

/-- The trailing `Answer: C` line of a block, newline included. -/
def ansTail : Str := "Answer: C\n".toList

/-- The rendered text of one block:
`<num>. <stem> A. o1 B. o2 C. o3 D. o4 Answer: C\n`. -/
def C4Block.render (b : C4Block) : Str :=
  b.num ++ '.' :: ' ' :: (b.stem ++ ' ' :: 'A' :: '.' :: ' ' :: (b.o1 ++
    ' ' :: 'B' :: '.' :: ' ' :: (b.o2 ++ ' ' :: 'C' :: '.' :: ' ' :: (b.o3 ++
      ' ' :: 'D' :: '.' :: ' ' :: (b.o4 ++ ' ' :: ansTail)))))

/-- Well-formedness as the claim states it: a question number and
non-degenerate stem/options. -/
def C4Block.wf (b : C4Block) : Bool :=
  !b.num.isEmpty && b.num.all (· ∈ digits10) &&
  safeStr b.stem && safeStr b.o1 && safeStr b.o2 && safeStr b.o3 && safeStr b.o4

/-- The amendment: a single-digit question number. -/
def C4Block.singleDigit (b : C4Block) : Bool :=
  b.num.length = 1

def renderBlocks (bs : List C4Block) : Str :=
  (bs.map C4Block.render).flatten

/-! ### Character facts -/

theorem digit_facts : ∀ c ∈ digits10,
    isDigitJS c = true ∧ ciEq c 'q' = false ∧ PDFParser.sepChar c = false := by
  decide

theorem safeInner_facts {c : Char} (h : safeInner c = true) :
    isDigitJS c = false ∧ c ≠ '.' ∧ c ≠ ':' ∧ isNlChar c = false ∧
    ciEq c 'a' = false ∧ ciEq c 'c' = false ∧ ciEq c 'q' = false := by
  unfold safeInner at h
  simp only [Bool.and_eq_true, Bool.not_eq_true', decide_eq_true_eq,
    Bool.not_eq_true, decide_eq_false_iff_not] at h
  tauto

theorem safeStr_head {s : Str} (h : safeStr s = true) :
    ∃ c rest, s = c :: rest ∧ isWsJS c = false ∧ safeInner c = true := by
  unfold safeStr at h
  cases s with
  | nil => simp at h
  | cons c rest =>
    simp only [Bool.and_eq_true, Bool.not_eq_true'] at h
    exact ⟨c, rest, rfl, h.1.1, h.1.2⟩

theorem safeStr_all {s : Str} (h : safeStr s = true) :
    ∀ c ∈ s, safeInner c = true := by
  unfold safeStr at h
  have := (Bool.and_eq_true _ _).mp h |>.2
  simpa [List.all_eq_true] using this

theorem safeStr_ne_nil {s : Str} (h : safeStr s = true) : s ≠ [] := by
  obtain ⟨c, rest, rfl, -, -⟩ := safeStr_head h
  simp

/-- A safe inner character is not a separator unless it is whitespace;
the head of a safe string is not a separator at all. -/
theorem safeStr_head_not_sep {s : Str} (h : safeStr s = true) :
    ∀ c, s.head? = some c → PDFParser.sepChar c = false := by
  obtain ⟨c, rest, rfl, hws, hin⟩ := safeStr_head h
  intro c' hc'
  cases hc'
  obtain ⟨-, hdot, hcolon, -, -, -, -⟩ := safeInner_facts hin
  unfold PDFParser.sepChar
  simp [hws, hdot, hcolon]

/-! ### No-fire lemmas for the lookaheads inside a well-formed block -/

theorem lookOpt_false {letter : Char} {s : Str}
    (h : ∀ c, s[1]? = some c → c ≠ '.') :
    PDFParser.lookOpt letter s = false := by
  match s with
  | [] => rfl
  | [a] => rfl
  | [a, b] => rfl
  | a :: b :: c :: t =>
    have hb : b ≠ '.' := h b rfl
    show (ciEq a letter && b = '.' && isWsJS c) = false
    simp [hb]

theorem getElem?_one_mem_drop {l : Str} {c : Char} (h : l[1]? = some c) :
    c ∈ l.drop 1 := by
  match l with
  | [] => simp at h
  | a :: t =>
    simp only [List.getElem?_cons_succ] at h
    simpa using List.getElem?_mem h

/-- In `pre.drop i ++ post` with `1 ≤ i < pre.length`, the character at
index 1 is either in `pre.drop 2` or is the head of `post`. -/
theorem second_char_cases {pre post : Str} {i : Nat}
    (h1 : 1 ≤ i) (h2 : i < pre.length) {c : Char}
    (hc : (pre.drop i ++ post)[1]? = some c) :
    c ∈ pre.drop 2 ∨ post.head? = some c := by
  by_cases hlen : 1 < (pre.drop i).length
  · left
    rw [List.getElem?_append] at hc
    rw [if_pos hlen] at hc
    have hmem : c ∈ (pre.drop i).drop 1 := getElem?_one_mem_drop hc
    rw [List.drop_drop] at hmem
    have heq : pre.drop (i + 1) = (pre.drop 2).drop (i - 1) := by
      rw [List.drop_drop]
      congr 1
      omega
    rw [heq] at hmem
    exact List.mem_of_mem_drop hmem
  · right
    have hlen2 : (pre.drop i).length = 1 := by
      rw [List.length_drop] at hlen ⊢
      omega
    rw [List.getElem?_append, if_neg hlen, hlen2] at hc
    norm_num at hc
    rwa [List.head?_eq_getElem?]

/-- The character at index 0 of `pre.drop i ++ post` with
`1 ≤ i < pre.length` lies in `pre.drop 1`. -/
theorem first_char_mem {pre post : Str} {i : Nat}
    (h1 : 1 ≤ i) (h2 : i < pre.length) {c : Char}
    (hc : (pre.drop i ++ post)[0]? = some c) :
    c ∈ pre.drop 1 := by
  have hlen : 0 < (pre.drop i).length := by
    rw [List.length_drop]
    omega
  rw [List.getElem?_append] at hc
  rw [if_pos hlen] at hc
  have hmem : c ∈ pre.drop i := List.getElem?_mem hc
  have : pre.drop i = (pre.drop 1).drop (i - 1) := by
    rw [List.drop_drop]
    congr 1
    omega
  rw [this] at hmem
  exact List.mem_of_mem_drop hmem

theorem lookOpt_nofire (letter : Char) {pre post : Str} {p0 : Char}
    (hpre : ∀ c ∈ pre.drop 2, c ≠ '.')
    (hpost : post.head? = some p0) (hp0 : p0 ≠ '.') :
    ∀ i, 1 ≤ i → i < pre.length →
      PDFParser.lookOpt letter (pre.drop i ++ post) = false := by
  intro i h1 h2
  apply lookOpt_false
  intro c hc
  rcases second_char_cases h1 h2 hc with hm | hm
  · exact hpre c hm
  · rw [hpost] at hm
    cases hm
    exact hp0

theorem strip_question_none {c0 : Char} (rest : Str) (hq : ciEq c0 'q' = false) :
    stripPrefCi "question".toList (c0 :: rest) = none ∧
    stripPrefCi "q".toList (c0 :: rest) = none := by
  constructor
  · rw [show "question".toList = 'q' :: "uestion".toList from rfl]
    exact stripPrefCi_cons_none hq
  · rw [show "q".toList = 'q' :: ([] : Str) from rfl]
    exact stripPrefCi_cons_none hq

theorem endLookahead_false {c0 : Char} {rest : Str}
    (hd : isDigitJS c0 = false)
    (ha : ciEq c0 'a' = false) (hc : ciEq c0 'c' = false) (hq : ciEq c0 'q' = false)
    (h1 : ∀ c, rest.head? = some c → isDigitJS c = false) :
    PDFParser.endLookahead (c0 :: rest) = false := by
  obtain ⟨e1, e2⟩ := strip_question_none rest hq
  have hds : PDFParser.digitStart (c0 :: rest) = false := by
    simp [PDFParser.digitStart, hd]
  have hdr : PDFParser.digitStart rest = false := by
    cases rest with
    | nil => rfl
    | cons c1 t => exact h1 c1 rfl
  have hosd : PDFParser.optSepDigit (c0 :: rest) = false := by
    unfold PDFParser.optSepDigit
    rw [hds]
    simp [hdr]
  have hnum : PDFParser.numLookahead (c0 :: rest) = false := by
    unfold PDFParser.numLookahead
    rw [e1, e2, hosd]
    rfl
  have hansw : hasPrefCi "answer".toList (c0 :: rest) = false := by
    rw [show "answer".toList = 'a' :: "nswer".toList from rfl]
    show (ciEq c0 'a' && hasPrefCi "nswer".toList rest) = false
    rw [ha]
    rfl
  have hcorr : hasPrefCi "correct".toList (c0 :: rest) = false := by
    rw [show "correct".toList = 'c' :: "orrect".toList from rfl]
    show (ciEq c0 'c' && hasPrefCi "orrect".toList rest) = false
    rw [hc]
    rfl
  unfold PDFParser.endLookahead
  rw [hnum, hansw, hcorr]
  rfl

theorem endLookahead_nofire {pre post : Str} {p0 : Char}
    (hpre : ∀ c ∈ pre.drop 1, isDigitJS c = false ∧
      ciEq c 'a' = false ∧ ciEq c 'c' = false ∧ ciEq c 'q' = false)
    (hpost : post.head? = some p0) (hp0 : isDigitJS p0 = false) :
    ∀ i, 1 ≤ i → i < pre.length →
      PDFParser.endLookahead (pre.drop i ++ post) = false := by
  intro i h1 h2
  have hne : pre.drop i ≠ [] := by
    intro h
    have := congrArg List.length h
    rw [List.length_drop] at this
    simp at this
    omega
  obtain ⟨c0, rest0, hcons⟩ : ∃ c0 rest0, pre.drop i = c0 :: rest0 := by
    cases hx : pre.drop i with
    | nil => exact absurd hx hne
    | cons a t => exact ⟨a, t, rfl⟩
  have hc0 : (pre.drop i ++ post)[0]? = some c0 := by
    rw [hcons, List.cons_append, List.getElem?_cons_zero]
  obtain ⟨hd0, ha0, hcc0, hq0⟩ := hpre c0 (first_char_mem h1 h2 hc0)
  rw [hcons, List.cons_append]
  apply endLookahead_false hd0 ha0 hcc0 hq0
  intro c1 hc1
  have hc1' : (pre.drop i ++ post)[1]? = some c1 := by
    rw [hcons, List.cons_append, List.getElem?_cons_succ]
    rw [show ((rest0 ++ post)[0]? : Option Char) = (rest0 ++ post).head? from
      (List.head?_eq_getElem? _).symm]
    cases rest0 with
    | nil => simpa using hc1
    | cons a t => simpa using hc1
  rcases second_char_cases h1 h2 hc1' with hm | hm
  · exact (hpre c1 (List.mem_of_mem_drop (by simpa using hm))).1
  · rw [hpost] at hm
    cases hm
    exact hp0

/-- Greedy `+` over an exact run: `xs` is entirely in the class, the head
of `ys` is not, and the continuation succeeds at the split. -/
theorem greedyPlus_exact {α} {p : Char → Bool} (xs ys : Str) {k : Str → Str → Option α}
    {v : α}
    (hne : xs ≠ []) (hxs : ∀ c ∈ xs, p c = true)
    (hys : ∀ c, ys.head? = some c → p c = false)
    (hk : k xs ys = some v) :
    greedyPlus p (xs ++ ys) k = some v := by
  have hr : runLen p (xs ++ ys) = xs.length := runLen_append_exact hxs hys
  unfold greedyPlus
  rw [hr]
  apply findSome?_range'_reverse_first xs.length _ v
    (by cases xs with | nil => exact absurd rfl hne | cons a t => simp)
  rw [List.take_append_of_le_length le_rfl, List.take_length,
    List.drop_append_of_le_length le_rfl, List.drop_length, List.nil_append]
  exact hk

theorem optCharClass_hit {α} {p : Char → Bool} {c : Char} {rest : Str}
    {k : Str → Option α} {v : α}
    (h : p c = true) (hk : k rest = some v) :
    optCharClass p (c :: rest) k = some v := by
  show ((if p c = true then k rest else none) <|> k (c :: rest)) = some v
  rw [h, if_pos rfl, hk]
  rfl

/-! ### The pattern-1 match on one well-formed block -/

theorem mem_opt_space {c : Char} {xs : Str} (h : c ∈ xs ++ [' '])
    (hxs : safeStr xs = true) : safeInner c = true ∨ c = ' ' := by
  rcases List.mem_append.mp h with hm | hm
  · exact Or.inl (safeStr_all hxs c hm)
  · simp at hm
    exact Or.inr hm

theorem no_dot_opt_space {c : Char} {xs : Str} (h : c ∈ xs ++ [' '])
    (hxs : safeStr xs = true) : c ≠ '.' := by
  rcases mem_opt_space h hxs with hm | hm
  · exact (safeInner_facts hm).2.1
  · subst hm
    decide


/-! ### The pattern-1 match on one well-formed block -/

/-- The rendered text from the `D.` label onward. -/
def segD (o4 r : Str) : Str :=
  'D' :: '.' :: ' ' :: (o4 ++ ' ' :: (ansTail ++ r))

def segC (o3 o4 r : Str) : Str :=
  'C' :: '.' :: ' ' :: (o3 ++ ' ' :: segD o4 r)

def segB (o2 o3 o4 r : Str) : Str :=
  'B' :: '.' :: ' ' :: (o2 ++ ' ' :: segC o3 o4 r)

def segA (o1 o2 o3 o4 r : Str) : Str :=
  'A' :: '.' :: ' ' :: (o1 ++ ' ' :: segB o2 o3 o4 r)

theorem matchP1Body_block (d : Char) (stem o1 o2 o3 o4 r : Str)
    (hd : d ∈ digits10)
    (hstem : safeStr stem = true) (ho1 : safeStr o1 = true) (ho2 : safeStr o2 = true)
    (ho3 : safeStr o3 = true) (ho4 : safeStr o4 = true) :
    PDFParser.matchP1Body (d :: '.' :: ' ' :: (stem ++ ' ' :: segA o1 o2 o3 o4 r)) =
      some (⟨[d], stem ++ [' '], 'A' :: '.' :: ' ' :: (o1 ++ [' ']),
             'B' :: '.' :: ' ' :: (o2 ++ [' ']), 'C' :: '.' :: ' ' :: (o3 ++ [' ']),
             'D' :: '.' :: ' ' :: (o4 ++ [' '])⟩, ansTail ++ r) := by
  obtain ⟨hdig, hdq, hdsep⟩ := digit_facts d hd
  unfold PDFParser.matchP1Body
  rw [show (d :: '.' :: ' ' :: (stem ++ ' ' :: segA o1 o2 o3 o4 r)) =
    [d] ++ ('.' :: ' ' :: (stem ++ ' ' :: segA o1 o2 o3 o4 r)) from rfl]
  apply greedyPlus_exact [d] _ (by simp)
    (by intro c hc; simp at hc; subst hc; exact hdig)
    (by intro c hc; cases hc; decide)
  dsimp only
  rw [show ('.' :: ' ' :: (stem ++ ' ' :: segA o1 o2 o3 o4 r)) =
    ['.', ' '] ++ (stem ++ ' ' :: segA o1 o2 o3 o4 r) from rfl]
  apply greedyPlus_exact ['.', ' '] _ (by simp)
    (by decide)
    (by
      obtain ⟨ch, st', hse, -, -⟩ := safeStr_head hstem
      rw [hse]
      intro c hc
      cases hc
      exact safeStr_head_not_sep hstem ch (by rw [hse]; rfl))
  dsimp only
  rw [List.append_cons stem ' ' (segA o1 o2 o3 o4 r)]
  apply lazyCapture_boundary (by simp)
    (lookOpt_nofire 'a'
      (fun c hc => no_dot_opt_space (List.mem_of_mem_drop hc) hstem)
      (by rw [segA]; rfl) (by decide))
    (by rw [segA]; rfl)
  dsimp only
  rw [show segA o1 o2 o3 o4 r =
    ('A' :: '.' :: ' ' :: (o1 ++ [' '])) ++ segB o2 o3 o4 r from by
      simp [segA, List.append_assoc]]
  apply lazyCapture_boundary (by simp)
    (lookOpt_nofire 'b'
      (fun c hc => by
        have hm : c ∈ ' ' :: (o1 ++ [' ']) := hc
        rcases List.mem_cons.mp hm with rfl | hm2
        · decide
        · exact no_dot_opt_space hm2 ho1)
      (by rw [segB]; rfl) (by decide))
    (by rw [segB]; rfl)
  dsimp only
  rw [show segB o2 o3 o4 r =
    ('B' :: '.' :: ' ' :: (o2 ++ [' '])) ++ segC o3 o4 r from by
      simp [segB, List.append_assoc]]
  apply lazyCapture_boundary (by simp)
    (lookOpt_nofire 'c'
      (fun c hc => by
        have hm : c ∈ ' ' :: (o2 ++ [' ']) := hc
        rcases List.mem_cons.mp hm with rfl | hm2
        · decide
        · exact no_dot_opt_space hm2 ho2)
      (by rw [segC]; rfl) (by decide))
    (by rw [segC]; rfl)
  dsimp only
  rw [show segC o3 o4 r =
    ('C' :: '.' :: ' ' :: (o3 ++ [' '])) ++ segD o4 r from by
      simp [segC, List.append_assoc]]
  apply lazyCapture_boundary (by simp)
    (lookOpt_nofire 'd'
      (fun c hc => by
        have hm : c ∈ ' ' :: (o3 ++ [' ']) := hc
        rcases List.mem_cons.mp hm with rfl | hm2
        · decide
        · exact no_dot_opt_space hm2 ho3)
      (by rw [segD]; rfl) (by decide))
    (by rw [segD]; rfl)
  dsimp only
  rw [show segD o4 r =
    ('D' :: '.' :: ' ' :: (o4 ++ [' '])) ++ (ansTail ++ r) from by
      simp [segD, List.append_assoc]]
  apply lazyCapture_boundary (by simp)
    (endLookahead_nofire
      (fun c hc => by
        have hm : c ∈ '.' :: ' ' :: (o4 ++ [' ']) := hc
        rcases List.mem_cons.mp hm with rfl | hm2
        · exact ⟨by decide, by decide, by decide, by decide⟩
        rcases List.mem_cons.mp hm2 with rfl | hm3
        · exact ⟨by decide, by decide, by decide, by decide⟩
        rcases mem_opt_space hm3 ho4 with hs | hs
        · obtain ⟨f1, -, -, -, f5, f6, f7⟩ := safeInner_facts hs
          exact ⟨f1, f5, f6, f7⟩
        · subst hs
          exact ⟨by decide, by decide, by decide, by decide⟩)
      (by rw [ansTail]; rfl) (by decide))
    (by rw [ansTail]; rfl)
  rfl

/-- The captures pattern 1 produces on one well-formed block. -/
def blockCaps (d : Char) (stem o1 o2 o3 o4 : Str) : PDFParser.P1Caps :=
  ⟨[d], stem ++ [' '], 'A' :: '.' :: ' ' :: (o1 ++ [' ']),
   'B' :: '.' :: ' ' :: (o2 ++ [' ']), 'C' :: '.' :: ' ' :: (o3 ++ [' ']),
   'D' :: '.' :: ' ' :: (o4 ++ [' '])⟩

theorem matchP1Body_none_head {c : Char} {t : Str} (h : isDigitJS c = false) :
    PDFParser.matchP1Body (c :: t) = none := by
  unfold PDFParser.matchP1Body greedyPlus
  rw [show runLen isDigitJS (c :: t) = 0 from by simp [runLen, h]]
  rfl

theorem matchPattern1At_fail2 {c0 c1 : Char} {t : Str}
    (hq : ciEq c0 'q' = false) (hd0 : isDigitJS c0 = false)
    (hd1 : isDigitJS c1 = false) :
    PDFParser.matchPattern1At (c0 :: c1 :: t) = none := by
  obtain ⟨e1, e2⟩ := strip_question_none (c1 :: t) hq
  unfold PDFParser.matchPattern1At
  rw [optPrefix2Ci_skip e1 e2]
  by_cases hs : PDFParser.sepChar c0 = true
  · show ((if PDFParser.sepChar c0 = true then PDFParser.matchP1Body (c1 :: t)
        else none) <|> PDFParser.matchP1Body (c0 :: c1 :: t)) = none
    rw [hs, if_pos rfl, matchP1Body_none_head hd1, matchP1Body_none_head hd0]
    rfl
  · rw [optCharClass_skip (Bool.not_eq_true _ ▸ eq_false_of_ne_true hs)]
    exact matchP1Body_none_head hd0

theorem matchPattern1At_block (d : Char) (stem o1 o2 o3 o4 r : Str)
    (hd : d ∈ digits10)
    (hstem : safeStr stem = true) (ho1 : safeStr o1 = true) (ho2 : safeStr o2 = true)
    (ho3 : safeStr o3 = true) (ho4 : safeStr o4 = true) :
    PDFParser.matchPattern1At
        (d :: '.' :: ' ' :: (stem ++ ' ' :: segA o1 o2 o3 o4 r)) =
      some (blockCaps d stem o1 o2 o3 o4, ansTail ++ r) := by
  obtain ⟨hdig, hdq, hdsep⟩ := digit_facts d hd
  obtain ⟨e1, e2⟩ := strip_question_none _ hdq
  unfold PDFParser.matchPattern1At
  rw [optPrefix2Ci_skip e1 e2, optCharClass_skip hdsep]
  exact matchP1Body_block d stem o1 o2 o3 o4 r hd hstem ho1 ho2 ho3 ho4

theorem matchPattern1At_nl_block (d : Char) (stem o1 o2 o3 o4 r : Str)
    (hd : d ∈ digits10)
    (hstem : safeStr stem = true) (ho1 : safeStr o1 = true) (ho2 : safeStr o2 = true)
    (ho3 : safeStr o3 = true) (ho4 : safeStr o4 = true) :
    PDFParser.matchPattern1At
        ('\n' :: d :: '.' :: ' ' :: (stem ++ ' ' :: segA o1 o2 o3 o4 r)) =
      some (blockCaps d stem o1 o2 o3 o4, ansTail ++ r) := by
  obtain ⟨e1, e2⟩ := strip_question_none
    (d :: '.' :: ' ' :: (stem ++ ' ' :: segA o1 o2 o3 o4 r))
    (show ciEq '\n' 'q' = false by decide)
  unfold PDFParser.matchPattern1At
  rw [optPrefix2Ci_skip e1 e2]
  exact optCharClass_hit (by decide)
    (matchP1Body_block d stem o1 o2 o3 o4 r hd hstem ho1 ho2 ho3 ho4)

theorem scanPattern1_block (d : Char) (stem o1 o2 o3 o4 r : Str)
    (hd : d ∈ digits10)
    (hstem : safeStr stem = true) (ho1 : safeStr o1 = true) (ho2 : safeStr o2 = true)
    (ho3 : safeStr o3 = true) (ho4 : safeStr o4 = true) :
    PDFParser.scanPattern1
        (d :: '.' :: ' ' :: (stem ++ ' ' :: segA o1 o2 o3 o4 r)) =
      some (blockCaps d stem o1 o2 o3 o4, ansTail ++ r) := by
  unfold PDFParser.scanPattern1
  apply findSome?_range_first _ 0 _ _ (by omega)
  · intro i hi
    omega
  · simpa using matchPattern1At_block d stem o1 o2 o3 o4 r hd hstem ho1 ho2 ho3 ho4

theorem scanPattern1_ansTail_block (d : Char) (stem o1 o2 o3 o4 r : Str)
    (hd : d ∈ digits10)
    (hstem : safeStr stem = true) (ho1 : safeStr o1 = true) (ho2 : safeStr o2 = true)
    (ho3 : safeStr o3 = true) (ho4 : safeStr o4 = true) :
    PDFParser.scanPattern1
        (ansTail ++ (d :: '.' :: ' ' :: (stem ++ ' ' :: segA o1 o2 o3 o4 r))) =
      some (blockCaps d stem o1 o2 o3 o4, ansTail ++ r) := by
  obtain ⟨hdig, hdq, hdsep⟩ := digit_facts d hd
  unfold PDFParser.scanPattern1
  apply findSome?_range_first _ 9 _ _
    (by simp only [List.length_append, show ansTail.length = 10 from rfl]; omega)
  · intro i hi
    interval_cases i
    · exact matchPattern1At_fail2 (by decide) (by decide) (by decide)
    · exact matchPattern1At_fail2 (by decide) (by decide) (by decide)
    · exact matchPattern1At_fail2 (by decide) (by decide) (by decide)
    · exact matchPattern1At_fail2 (by decide) (by decide) (by decide)
    · exact matchPattern1At_fail2 (by decide) (by decide) (by decide)
    · exact matchPattern1At_fail2 (by decide) (by decide) (by decide)
    · exact matchPattern1At_fail2 (by decide) (by decide) (by decide)
    · exact matchPattern1At_fail2 (by decide) (by decide) (by decide)
    · exact matchPattern1At_fail2 (by decide) (by decide) (by decide)
  · exact matchPattern1At_nl_block d stem o1 o2 o3 o4 r hd hstem ho1 ho2 ho3 ho4

/-- With a single-digit question number, the answer pattern fires at the
very start of the `Answer: C` window and captures `C`. -/
theorem answerMatchAt_ansTail {d : Char} (hd : d ∈ digits10) (X : Str) :
    PDFParser.answerMatchAt [d] (ansTail ++ X) = some 'C' := by
  have hd' : d ∈ ['0', '1', '2', '3', '4', '5', '6', '7', '8', '9'] := hd
  fin_cases hd' <;> rfl

theorem answerSearch_ansTail {d : Char} (hd : d ∈ digits10) (X : Str) :
    PDFParser.answerSearch [d] (ansTail ++ X) = some 'C' := by
  unfold PDFParser.answerSearch
  apply findSome?_range_first _ 0 _ _ (by omega)
  · intro i hi
    omega
  · simpa using answerMatchAt_ansTail hd X

theorem mkRecordP1_correctAnswer {caps : PDFParser.P1Caps} {d : Char}
    (hd : d ∈ digits10) (hnum : caps.num = [d]) (X : Str) :
    (PDFParser.mkRecordP1 caps (ansTail ++ X)).correctAnswer = Json.num 2 := by
  have hwin : (ansTail ++ X).take 200 = ansTail ++ X.take 190 := by
    rw [List.take_append_eq_append_take,
      List.take_of_length_le (by rw [show ansTail.length = 10 from rfl]; omega),
      show (200 - ansTail.length) = 190 from rfl]
  simp only [PDFParser.mkRecordP1]
  rw [hnum, hwin, answerSearch_ansTail hd]
  show Json.num (PDFParser.letterIdx 'C') = Json.num 2
  rw [show PDFParser.letterIdx 'C' = 2 from by decide]

theorem render_append (b : C4Block) (X : Str) :
    b.render ++ X =
      b.num ++ '.' :: ' ' :: (b.stem ++ ' ' :: segA b.o1 b.o2 b.o3 b.o4 X) := by
  simp [C4Block.render, segA, segB, segC, segD, List.append_assoc]

theorem wf_unpack {b : C4Block} (h : b.wf = true) :
    (∀ c ∈ b.num, c ∈ digits10) ∧ safeStr b.stem = true ∧
    safeStr b.o1 = true ∧ safeStr b.o2 = true ∧ safeStr b.o3 = true ∧
    safeStr b.o4 = true := by
  unfold C4Block.wf at h
  simp only [Bool.and_eq_true, List.all_eq_true, decide_eq_true_eq] at h
  tauto

theorem singleDigit_num {b : C4Block} (hwf : b.wf = true)
    (hsd : b.singleDigit = true) :
    ∃ d ∈ digits10, b.num = [d] := by
  obtain ⟨hall, -⟩ := wf_unpack hwf
  have hlen : b.num.length = 1 := by
    unfold C4Block.singleDigit at hsd
    simpa using hsd
  obtain ⟨d, hd⟩ := List.length_eq_one.mp hlen
  exact ⟨d, hall d (by rw [hd]; exact List.mem_singleton_self d), hd⟩

theorem renderBlocks_cons (b : C4Block) (bs : List C4Block) :
    renderBlocks (b :: bs) = b.render ++ renderBlocks bs := by
  simp [renderBlocks]

theorem length_le_renderBlocks (bs : List C4Block) :
    bs.length ≤ (renderBlocks bs).length := by
  induction bs with
  | nil => simp [renderBlocks]
  | cons b t ih =>
    rw [renderBlocks_cons]
    have h1 : 1 ≤ b.render.length := by
      unfold C4Block.render
      simp
      omega
    simp only [List.length_append, List.length_cons]
    omega

theorem execP1_succ_some {f : Nat} {s : Str} {caps : PDFParser.P1Caps} {rest : Str}
    (h : PDFParser.scanPattern1 s = some (caps, rest)) :
    PDFParser.execP1 (f + 1) s =
      PDFParser.mkRecordP1 caps rest :: PDFParser.execP1 f rest := by
  show (match PDFParser.scanPattern1 s with
        | none => []
        | some (caps, rest) =>
          PDFParser.mkRecordP1 caps rest :: PDFParser.execP1 f rest) = _
  rw [h]

theorem execP1_tail (bs : List C4Block) (fuel : Nat)
    (hwf : ∀ b ∈ bs, b.wf = true) (hsd : ∀ b ∈ bs, b.singleDigit = true)
    (hfuel : bs.length < fuel) :
    (PDFParser.execP1 fuel (ansTail ++ renderBlocks bs)).map Question.correctAnswer =
      List.replicate bs.length (Json.num 2) := by
  induction bs generalizing fuel with
  | nil =>
    obtain ⟨f, rfl⟩ : ∃ f, fuel = f + 1 := ⟨fuel - 1, by omega⟩
    rfl
  | cons b bs ih =>
    obtain ⟨f, rfl⟩ : ∃ f, fuel = f + 1 := ⟨fuel - 1, by omega⟩
    obtain ⟨-, hstem, ho1, ho2, ho3, ho4⟩ :=
      wf_unpack (hwf b (List.mem_cons_self b bs))
    obtain ⟨d, hd, hnum⟩ :=
      singleDigit_num (hwf b (List.mem_cons_self b bs))
        (hsd b (List.mem_cons_self b bs))
    have hshape : ansTail ++ renderBlocks (b :: bs) =
        ansTail ++ (d :: '.' :: ' ' ::
          (b.stem ++ ' ' :: segA b.o1 b.o2 b.o3 b.o4 (renderBlocks bs))) := by
      rw [renderBlocks_cons, render_append, hnum]
      rfl
    rw [hshape, execP1_succ_some
      (scanPattern1_ansTail_block d b.stem b.o1 b.o2 b.o3 b.o4 (renderBlocks bs)
        hd hstem ho1 ho2 ho3 ho4)]
    rw [List.map_cons, List.length_cons, List.replicate_succ]
    have hrec : (PDFParser.mkRecordP1 (blockCaps d b.stem b.o1 b.o2 b.o3 b.o4)
        (ansTail ++ renderBlocks bs)).correctAnswer = Json.num 2 :=
      mkRecordP1_correctAnswer hd rfl (renderBlocks bs)
    rw [hrec, ih f (fun x hx => hwf x (List.mem_cons_of_mem b hx))
      (fun x hx => hsd x (List.mem_cons_of_mem b hx)) (by simp at hfuel; omega)]

theorem extractP1_blocks (bs : List C4Block) (hne : bs ≠ [])
    (hwf : ∀ b ∈ bs, b.wf = true) (hsd : ∀ b ∈ bs, b.singleDigit = true) :
    (PDFParser.extractP1 (renderBlocks bs)).map Question.correctAnswer =
      List.replicate bs.length (Json.num 2) := by
  obtain ⟨b, bs', rfl⟩ : ∃ b bs', bs = b :: bs' := by
    cases bs with
    | nil => exact absurd rfl hne
    | cons b t => exact ⟨b, t, rfl⟩
  obtain ⟨-, hstem, ho1, ho2, ho3, ho4⟩ :=
    wf_unpack (hwf b (List.mem_cons_self b bs'))
  obtain ⟨d, hd, hnum⟩ :=
    singleDigit_num (hwf b (List.mem_cons_self b bs'))
      (hsd b (List.mem_cons_self b bs'))
  have hshape : renderBlocks (b :: bs') =
      d :: '.' :: ' ' ::
        (b.stem ++ ' ' :: segA b.o1 b.o2 b.o3 b.o4 (renderBlocks bs')) := by
    rw [renderBlocks_cons, render_append, hnum]
    rfl
  unfold PDFParser.extractP1
  rw [hshape, execP1_succ_some
    (scanPattern1_block d b.stem b.o1 b.o2 b.o3 b.o4 (renderBlocks bs')
      hd hstem ho1 ho2 ho3 ho4)]
  rw [List.map_cons]
  simp only [List.length_cons, List.replicate_succ]
  rw [mkRecordP1_correctAnswer hd rfl (renderBlocks bs')]
  rw [execP1_tail bs' _ (fun x hx => hwf x (List.mem_cons_of_mem b hx))
    (fun x hx => hsd x (List.mem_cons_of_mem b hx))
    (by
      have h := length_le_renderBlocks bs'
      simp only [segA, segB, segC, segD, List.length_cons, List.length_append]
      omega)]

/-- C4 (corrected): for every non-empty list of well-formed blocks
`<num>. <stem> A. o1 B. o2 C. o3 D. o4 Answer: C` whose question numbers
are single digits, `extractQuestionsFromText` returns exactly one record
per block (so the pattern-1 strategy is the one that fires), each with
`correctAnswer = 2`.  The single-digit restriction is the amendment: for
multi-digit numbers the per-question answer lookup misses the `Answer: C`
line and the index defaults to `0` (see the counterexample). -/
theorem claim_C4_strict_blocks (bs : List C4Block) (hne : bs ≠ [])
    (hwf : ∀ b ∈ bs, b.wf = true) (hsd : ∀ b ∈ bs, b.singleDigit = true) :
    (PDFParser.extractQuestionsFromText (renderBlocks bs)).map
        Question.correctAnswer = List.replicate bs.length (Json.num 2) := by
  have hmap := extractP1_blocks bs hne hwf hsd
  have hlen : (PDFParser.extractP1 (renderBlocks bs)).length = bs.length := by
    have h := congrArg List.length hmap
    simpa using h
  have hni : ¬ ((PDFParser.extractP1 (renderBlocks bs)).isEmpty = true) := by
    intro hempty
    rw [List.isEmpty_iff] at hempty
    rw [hempty] at hlen
    cases bs with
    | nil => exact hne rfl
    | cons x t => simp at hlen
  have hq : PDFParser.extractQuestionsFromText (renderBlocks bs) =
      PDFParser.extractP1 (renderBlocks bs) := by
    simp only [PDFParser.extractQuestionsFromText]
    rw [if_neg hni]
  rw [hq, hmap]

def c4witBlock : C4Block :=
  ⟨['1'], "Stem".toList, "xx".toList, "yy".toList, "zz".toList, "ww".toList⟩

theorem claim_C4_strict_blocks_witness :
    (PDFParser.extractQuestionsFromText (renderBlocks [c4witBlock])).map
        Question.correctAnswer = List.replicate 1 (Json.num 2) :=
  claim_C4_strict_blocks [c4witBlock] (by simp) (by decide) (by decide)

def c4cexBlock : C4Block :=
  ⟨['1', '0'], "Stem".toList, "xx".toList, "yy".toList, "zz".toList, "ww".toList⟩

/-- C4 counterexample: a single well-formed block whose question number is
the two-digit `10`.  In the template regex of the answer lookup only the
last digit of the interpolated number becomes optional, so the lookup
never matches the `Answer: C` line and the record's `correctAnswer`
defaults to `0`, not `2`. -/
theorem claim_C4_counterexample :
    c4cexBlock.wf = true ∧
    (PDFParser.extractQuestionsFromText (renderBlocks [c4cexBlock])).map
        Question.correctAnswer = [Json.num 0] ∧
    Json.num 0 ≠ Json.num 2 := by
  refine ⟨rfl, rfl, ?_⟩
  intro h
  injection h with h'
  exact absurd h' (by decide)
